import Mathlib

/-!
Verification of the GrantFlow pipeline.

This file gives a shallow embedding in Lean 4 of the parts of the
GrantFlow repository (src/build.py, src/enricher.py) that the claims
about the pipeline concern, and proves or refutes each claim.

Conventions of the embedding:
  - Python dicts holding grant records are modelled by the `Grant`
    structure; a field that may be a missing key is an `Option`, and the
    enrichment fields, whose value may also be Python `None` (the
    enricher stores extractor results directly, and those can be None),
    are `Option Jv` where `Jv.null` models a present key with value None.
  - Python strings are modelled by `String`, with character-level
    operations done on `List Char` (`String.toList` / `List.asString`)
    so that everything reduces inside the kernel.  Case folding and
    whitespace are modelled at ASCII precision, which covers every
    string the claims are about.
  - The regular expressions of enricher.py are embedded as an abstract
    syntax tree (`RE`) together with an ordered-choice backtracking
    matcher (`mrun`) that explores alternatives in exactly the order the
    Python `re` engine does, so the head of the result list is the match
    Python reports.  Patterns compiled with re.IGNORECASE use the
    case-insensitive literal `litCI`; under IGNORECASE the classes
    `[A-Z]` and `[a-z]` both match any ASCII letter, which is how `CC`
    interprets them.
-/

/-- A JSON-ish scalar stored in an optional grant field: either JSON null
(Python None) or a string. -/
inductive Jv where
  | null : Jv
  | str (s : String) : Jv
deriving DecidableEq

/-- One grant record (one JSON object flowing through the pipeline).
`title` is required; `niche`, `link`, `source` are a missing key or a
string; the enrichment fields can in addition be present with value null,
because enricher.py assigns the raw extractor results (possibly None). -/
structure Grant where
  title : String
  niche : Option String := none
  link : Option String := none
  source : Option String := none
  deadline : Option Jv := none
  amount : Option Jv := none
  eligibility : Option Jv := none
  summary : Option Jv := none
  enrichedAt : Option Jv := none
deriving DecidableEq

/-- ASCII decimal digit: the characters matched by the d-class of the
source regexes. -/
def isDig (c : Char) : Bool := '0' ≤ c && c ≤ '9'

/-- ASCII letter. -/
def isAsciiLetter (c : Char) : Bool := ('a' ≤ c && c ≤ 'z') || ('A' ≤ c && c ≤ 'Z')

/-- Whitespace matched by the s-class of Python re (ASCII part), which is
also the set stripped by Python str.strip(). -/
def isWsp (c : Char) : Bool :=
  c = ' ' || c = '\t' || c = '\n' || c = '\r' || c = Char.ofNat 11 || c = Char.ofNat 12

/-- str.lower() (ASCII model). -/
def pyLower (s : String) : String := (s.toList.map Char.toLower).asString

/-- str.strip() with no argument: remove leading and trailing whitespace. -/
def pyStrip (s : String) : String :=
  (((s.toList.dropWhile isWsp).reverse.dropWhile isWsp).reverse).asString

/-- Python slicing s[:n] (by characters). -/
def pyTake (s : String) (n : Nat) : String := (s.toList.take n).asString

/-- The character classes appearing in the enricher regexes.  `upper` and
`lower` are `[A-Z]` and `[a-z]` as compiled under re.IGNORECASE, hence
both match any ASCII letter. -/
inductive CC where
  | digit
  | upper
  | lower
  | wsp
  | colonWsp
  | anyNoNl
  | noNlDot
deriving DecidableEq

/-- Interpretation of a character class. -/
def CC.holds : CC → Char → Bool
  | .digit, c => isDig c
  | .upper, c => isAsciiLetter c
  | .lower, c => isAsciiLetter c
  | .wsp, c => isWsp c
  | .colonWsp, c => c = ':' || isWsp c
  | .anyNoNl, c => c != '\n'
  | .noNlDot, c => c != '\n' && c != '.'

/-- Abstract syntax of the regex fragment used by enricher.py.
`lit` matches a literal string exactly; `litCI` matches it up to ASCII
case (for the patterns compiled with re.IGNORECASE).  `rep r low extra`
is the greedy bounded repetition r{low, low+extra}.  `grp` is the single
capturing group a pattern may contain. -/
inductive RE where
  | eps : RE
  | lit (s : String) : RE
  | litCI (s : String) : RE
  | cls (cc : CC) : RE
  | seq (a b : RE) : RE
  | alt (a b : RE) : RE
  | star (r : RE) : RE
  | starL (r : RE) : RE
  | opt (r : RE) : RE
  | rep (r : RE) (low extra : Nat) : RE
  | grp (r : RE) : RE

/-- One backtracking outcome: the rest of the input after the matched
prefix, and the characters captured by the group if it participated. -/
abbrev MRes := List Char × Option (List Char)

/-- First-some choice used to thread the capture through a sequence. -/
def oFirst (a b : Option (List Char)) : Option (List Char) :=
  match a with
  | some x => some x
  | none => b

/-- Strip an exact literal from the front of the input. -/
def litStrip : List Char → List Char → Option (List Char)
  | [], s => some s
  | _ :: _, [] => none
  | l :: lt, c :: ct => if l = c then litStrip lt ct else none

/-- Strip a literal from the front of the input, up to ASCII case. -/
def litStripCI : List Char → List Char → Option (List Char)
  | [], s => some s
  | _ :: _, [] => none
  | l :: lt, c :: ct => if l.toLower = c.toLower then litStripCI lt ct else none

/-- Kleene star by ordered choice.  Greedy order is iterate-first (more
iterations are preferred), lazy order is empty-first, exactly as the
Python engine explores them.  Iterations that consume nothing are cut:
the starred subpatterns of the source regexes always consume at least one
character, so this is semantics-preserving, and it bounds the recursion
by the supplied fuel (instantiated with the input length). -/
def starRuns (m : List Char → List MRes) (lazy : Bool) : Nat → List Char → List MRes
  | 0, s => [(s, none)]
  | fuel + 1, s =>
    let deeper := ((m s).filter (fun p => p.1.length < s.length)).flatMap
      (fun p => (starRuns m lazy fuel p.1).map (fun q => (q.1, oFirst p.2 q.2)))
    if lazy then (s, none) :: deeper else deeper ++ [(s, none)]

/-- Optional phase of a greedy bounded repetition: up to `extra` further
iterations, more preferred. -/
def repOpt (m : List Char → List MRes) : Nat → List Char → List MRes
  | 0, s => [(s, none)]
  | extra + 1, s =>
    (m s).flatMap
      (fun p => (repOpt m extra p.1).map (fun q => (q.1, oFirst p.2 q.2)))
      ++ [(s, none)]

/-- Mandatory phase of a greedy bounded repetition: exactly `low`
iterations, then the optional phase. -/
def repMand (m : List Char → List MRes) (extra : Nat) : Nat → List Char → List MRes
  | 0, s => repOpt m extra s
  | low + 1, s =>
    (m s).flatMap
      (fun p => (repMand m extra low p.1).map (fun q => (q.1, oFirst p.2 q.2)))

/-- Greedy bounded repetition r{low, low+extra}: `low` mandatory
iterations followed by up to `extra` optional ones, more preferred. -/
def repRuns (m : List Char → List MRes) (low extra : Nat) (s : List Char) : List MRes :=
  repMand m extra low s

/-- Ordered-choice backtracking matcher: every way to match `r` against a
prefix of the input, most preferred first.  The head of the list is the
match the Python re engine reports at this starting position. -/
def mrun : RE → List Char → List MRes
  | .eps, s => [(s, none)]
  | .lit l, s =>
    match litStrip l.toList s with
    | some rest => [(rest, none)]
    | none => []
  | .litCI l, s =>
    match litStripCI l.toList s with
    | some rest => [(rest, none)]
    | none => []
  | .cls _, [] => []
  | .cls cc, c :: t => if cc.holds c then [(t, none)] else []
  | .seq a b, s =>
    (mrun a s).flatMap
      (fun p => (mrun b p.1).map (fun q => (q.1, oFirst p.2 q.2)))
  | .alt a b, s => mrun a s ++ mrun b s
  | .star r, s => starRuns (mrun r) false s.length s
  | .starL r, s => starRuns (mrun r) true s.length s
  | .opt r, s => mrun r s ++ [(s, none)]
  | .rep r low extra, s => repRuns (mrun r) low extra s
  | .grp r, s =>
    (mrun r s).map (fun p => (p.1, some (s.take (s.length - p.1.length))))

/-- re.search: try each start position left to right and report the first
(leftmost) match: the whole matched text and the group capture. -/
def reSearch (r : RE) : List Char → Option (List Char × Option (List Char))
  | [] =>
    match (mrun r []).head? with
    | some p => some ([], p.2)
    | none => none
  | c :: t =>
    match (mrun r (c :: t)).head? with
    | some p => some ((c :: t).take ((c :: t).length - p.1.length), p.2)
    | none => reSearch r t

/-- re.findall for a single-group pattern: scan left to right, collect the
group text of each non-overlapping match, resume after each match (or one
character further on an empty match).  The fuel bounds the scan and is
instantiated with length + 1, which is always enough since every step
consumes at least one character. -/
def findAllF (r : RE) : Nat → List Char → List (List Char)
  | 0, _ => []
  | fuel + 1, s =>
    match (mrun r s).head? with
    | some p =>
      let capL := p.2.getD []
      if p.1.length < s.length then capL :: findAllF r fuel p.1
      else
        match s with
        | [] => [capL]
        | _ :: t => capL :: findAllF r fuel t
    | none =>
      match s with
      | [] => []
      | _ :: t => findAllF r fuel t

/-- Fold a nonempty list of alternatives left to right (Python alternation
prefers the leftmost alternative). -/
def altsOf (r : RE) (rs : List RE) : RE := rs.foldl RE.alt r

/-- Sequence a list of regexes. -/
def seqL : List RE → RE
  | [] => .eps
  | [r] => r
  | r :: rest => .seq r (seqL rest)

/-- One or more: r+ (greedy). -/
def rePlus (r : RE) : RE := .seq r (.star r)

/-- The date shape ([A-Z][a-z]+\s\d{1,2},?\s\d{4}) captured by the first
two deadline patterns (classes under IGNORECASE). -/
def dateShape : RE :=
  seqL [.cls .upper, rePlus (.cls .lower), .cls .wsp,
        .rep (.cls .digit) 1 1, .opt (.lit ","), .cls .wsp,
        .rep (.cls .digit) 4 0]

/-- Deadline pattern 1 of enricher.extract_deadline:
(?:Deadline|Due Date|Due|Closes|Closing Date)[:\s]*(date shape). -/
def deadlineP1 : RE :=
  seqL [altsOf (.litCI "Deadline")
          [.litCI "Due Date", .litCI "Due", .litCI "Closes", .litCI "Closing Date"],
        .star (.cls .colonWsp), .grp dateShape]

/-- Deadline pattern 2: (?:submit|application|due|deadline).*?(date shape);
the dot does not match a newline (no DOTALL) and the gap is lazy. -/
def deadlineP2 : RE :=
  seqL [altsOf (.litCI "submit") [.litCI "application", .litCI "due", .litCI "deadline"],
        .starL (.cls .anyNoNl), .grp dateShape]

/-- Deadline pattern 3: (?:Deadline|Due)[:\s]*(\d{1,2}/\d{1,2}/\d{4}). -/
def deadlineP3 : RE :=
  seqL [altsOf (.litCI "Deadline") [.litCI "Due"],
        .star (.cls .colonWsp),
        .grp (seqL [.rep (.cls .digit) 1 1, .lit "/",
                    .rep (.cls .digit) 1 1, .lit "/",
                    .rep (.cls .digit) 4 0])]

/-- Deadline pattern 4: (?:Deadline|Due)[:\s]*(\d{4}-\d{2}-\d{2}). -/
def deadlineP4 : RE :=
  seqL [altsOf (.litCI "Deadline") [.litCI "Due"],
        .star (.cls .colonWsp),
        .grp (seqL [.rep (.cls .digit) 4 0, .lit "-",
                    .rep (.cls .digit) 2 0, .lit "-",
                    .rep (.cls .digit) 2 0])]

/-- The four deadline patterns, in the order extract_deadline tries them. -/
def deadlinePatterns : List RE := [deadlineP1, deadlineP2, deadlineP3, deadlineP4]

/-- Word character for the word-boundary check of the rolling keyword
pattern (ASCII model of the w-class). -/
def wordChar (c : Char) : Bool := isAsciiLetter c || isDig c || c = '_'

/-- The rolling keywords of extract_deadline. -/
def rollingKeywords : List String :=
  ["rolling", "open", "ongoing", "no deadline", "continuous"]

/-- Does one of the keywords match here, case-insensitively, with a word
boundary right after it? -/
def kwHere (s : List Char) : Bool :=
  rollingKeywords.any (fun kw =>
    match litStripCI kw.toList s with
    | some rest =>
      match rest with
      | [] => true
      | c :: _ => !wordChar c
    | none => false)

/-- Scan for a whole-word, case-insensitive occurrence of one of the
rolling keywords: the word-boundary regex b(rolling|open|ongoing|no
deadline|continuous)b of extract_deadline.  `prev` is the character just
before the current position (none at the very start). -/
def rollScan (prev : Option Char) : List Char → Bool
  | [] => false
  | c :: t =>
    let bOk := match prev with
      | none => true
      | some p => !wordChar p
    (bOk && kwHere (c :: t)) || rollScan (some c) t

/-- Does the text contain a whole-word rolling/open/ongoing/no deadline/
continuous keyword (case-insensitive)? -/
def hasRollingKw (text : String) : Bool := rollScan none text.toList

/-- enricher.extract_deadline: try the four date patterns in order and
return the first match's captured group, stripped; otherwise return
"Rolling" if a rolling keyword occurs; otherwise None. -/
def extractDeadline (text : String) : Option String :=
  match deadlinePatterns.findSome? (fun p => reSearch p text.toList) with
  | some m => some (pyStrip (m.2.getD []).asString)
  | none => if hasRollingKw text then some ("Rolling") else none

/-- The amount token pattern \$(\d{1,3}(?:,\d{3})*) of
enricher.extract_amount (no IGNORECASE; all literals caseless anyway). -/
def amountRE : RE :=
  .seq (.lit "$")
    (.grp (.seq (.rep (.cls .digit) 1 2)
                (.star (.seq (.lit ",") (.rep (.cls .digit) 3 0)))))

/-- Decimal value of a digit string (most significant first). -/
def digitsVal (l : List Char) : Nat :=
  l.foldl (fun a c => 10 * a + (c.toNat - 48)) 0

/-- int(tok.replace(",", "")): drop the commas, read the digits. -/
def parseAmountTok (l : List Char) : Nat :=
  digitsVal (l.filter (fun c => c != ','))

/-- Helper for comma formatting: digits least significant first, a comma
inserted after every third digit. -/
def commaRev : List Char → Nat → List Char
  | [], _ => []
  | c :: t, 0 => ',' :: c :: commaRev t 2
  | c :: t, k + 1 => c :: commaRev t k

/-- Python format specifier {n:,}: the decimal digits of n grouped in
threes by commas. -/
def commaFmt (n : Nat) : String :=
  ((commaRev (Nat.repr n).toList.reverse 3).reverse).asString

/-- enricher.extract_amount: find every dollar token, parse each (commas
stripped) and return the largest, comma-formatted; None when no token. -/
def extractAmount (text : String) : Option String :=
  let toks := findAllF amountRE (text.length + 1) text.toList
  match toks with
  | [] => none
  | t :: ts => some (commaFmt (ts.foldl (fun a x => Nat.max a (parseAmountTok x)) (parseAmountTok t)))

/-- Eligibility pattern 1:
(?:Eligib(?:le|ility)|Who (?:Can|May|Should) Apply)[:\s]*([^\n.]{10,150}). -/
def eligP1 : RE :=
  seqL [.alt (.seq (.litCI "Eligib") (.alt (.litCI "le") (.litCI "ility")))
             (seqL [.litCI "Who ", altsOf (.litCI "Can") [.litCI "May", .litCI "Should"],
                    .litCI " Apply"]),
        .star (.cls .colonWsp), .grp (.rep (.cls .noNlDot) 10 140)]

/-- Eligibility pattern 2:
(?:Open to|Available to|Applicants must be)[:\s]*([^\n.]{10,150}). -/
def eligP2 : RE :=
  seqL [altsOf (.litCI "Open to") [.litCI "Available to", .litCI "Applicants must be"],
        .star (.cls .colonWsp), .grp (.rep (.cls .noNlDot) 10 140)]

/-- Eligibility pattern 3 (no capturing group):
(?:must be enrolled|must be a|candidates should)[^\n.]{5,120}. -/
def eligP3 : RE :=
  seqL [altsOf (.litCI "must be enrolled") [.litCI "must be a", .litCI "candidates should"],
        .rep (.cls .noNlDot) 5 115]

/-- The eligibility patterns in the order extract_eligibility tries them. -/
def eligPatterns : List RE := [eligP1, eligP2, eligP3]

/-- enricher.extract_eligibility: first matching pattern wins; the result
is group(1) when the pattern has a group, else the whole match, stripped
and truncated to 200 characters. -/
def extractEligibility (text : String) : Option String :=
  (eligPatterns.findSome? (fun p => reSearch p text.toList)).map (fun m =>
    let r := match m.2 with
      | some g => g
      | none => m.1
    pyTake (pyStrip r.asString) 200)

/-- The interface the enricher sees of a fetched, parsed detail page:
the two description metadata contents (present when the tag exists with a
content attribute), the visible text of each paragraph element in order,
and the cleaned page text (clean_text output). -/
structure Page where
  metaDescription : Option String := none
  ogDescription : Option String := none
  paragraphs : List String := []
  text : String := ""
deriving DecidableEq

/-- The boilerplate prefixes rejected by extract_summary. -/
def summaryJunkStarts : List String := ["Cookie", "Privacy", "©", "Skip"]

/-- Does the paragraph text start with one of the boilerplate prefixes? -/
def startsJunk (t : String) : Bool :=
  summaryJunkStarts.any (fun p => litStrip p.toList t.toList != none)

/-- First paragraph whose text exceeds 40 characters and is not
boilerplate, truncated to 200 characters. -/
def firstGoodPara : List String → Option String
  | [] => none
  | t :: rest =>
    if 40 < t.length && !startsJunk t then some (pyTake t 200) else firstGoodPara rest

/-- enricher.extract_summary: meta description (if longer than 20), else
og:description (same threshold), else the first meaningful paragraph. -/
def extractSummary (pg : Page) : Option String :=
  match pg.metaDescription with
  | some c =>
    if 20 < c.length then some (pyTake (pyStrip c) 200)
    else
      match pg.ogDescription with
      | some o =>
        if 20 < o.length then some (pyTake (pyStrip o) 200)
        else firstGoodPara pg.paragraphs
      | none => firstGoodPara pg.paragraphs
  | none =>
    match pg.ogDescription with
    | some o =>
      if 20 < o.length then some (pyTake (pyStrip o) 200)
      else firstGoodPara pg.paragraphs
    | none => firstGoodPara pg.paragraphs

/-- Models build.SITE_URL. -/
def siteUrl : String := "https://grantflow.vercel.app"

/-- Models build.BRAND. -/
def brand : String := "GrantFlow"

/-- One entry of build.NICHE_META. -/
structure NicheInfo where
  label : String
  emoji : String
  color : String
  icon : String
deriving DecidableEq

/-- build.get_niche_info: NICHE_META lookup with the catch-all default. -/
def getNicheInfo (n : String) : NicheInfo :=
  if n = "SLP" then ⟨"Speech-Language Pathology", "🗣️", "purple", "SLP"⟩
  else if n = "PT" then ⟨"Physical Therapy", "🏃", "green", "PT"⟩
  else if n = "OT" then ⟨"Occupational Therapy", "🖐️", "orange", "OT"⟩
  else if n = "Family" then ⟨"Family & Children", "💙", "sky", "FAM"⟩
  else if n = "STEM" then ⟨"STEM", "🔬", "blue", "STEM"⟩
  else ⟨n, "📋", "gray", n⟩

/-- Python str.isdigit (ASCII model): nonempty and all digits. -/
def isDigitsStr (l : List Char) : Bool := !l.isEmpty && l.all isDig

/-- build.format_amount.  The argument is the value of the amount field
(missing key modelled as none); Python falsiness makes None and the empty
string behave like a missing key here. -/
def formatAmount (amount : Option Jv) : String :=
  match amount with
  | none => "See details"
  | some .null => "See details"
  | some (.str a) =>
    if a = "" then "See details"
    else
      let stripped := a.toList.filter (fun c => c != ',')
      if isDigitsStr stripped then "$" ++ commaFmt (digitsVal stripped)
      else a

/-- Rendering of a field value inside an f-string: str(None) is "None". -/
def pyShow : Jv → String
  | .null => "None"
  | .str s => s

/-- dict.get with a string default: the default is used only when the key
is missing, not when it is present with value None. -/
def jGetD (f : Option Jv) (d : String) : Jv := f.getD (.str d)

/-- String prefix test (str.startswith). -/
def strStarts (pre s : String) : Bool := litStrip pre.toList s.toList != none

/-- build.build_grant_page.  Total up to the Python failure points,
which are surfaced as `Except.error`: a missing niche key raises KeyError,
and slicing a None summary (desc = summary[:155]) or a None enriched_at
(the [:10] slice inside the template) raises TypeError.  Everything else
is the literal f-string of the source with the same substitutions. -/
def buildGrantPage (g : Grant) (slug : String) : Except String String :=
  match g.niche with
  | none => .error "KeyError: niche"
  | some niche =>
    let ni := getNicheInfo niche
    let amount := formatAmount g.amount
    let deadline := pyShow (jGetD g.deadline "Not specified")
    match jGetD g.summary "Visit the source for full details." with
    | .null => .error "TypeError: slicing None summary"
    | .str summary =>
      let eligibility := pyShow (jGetD g.eligibility "See the official page for requirements.")
      let link := g.link.getD "#"
      let source := g.source.getD "Unknown"
      let title := g.title ++ " | " ++ brand
      let desc := pyTake summary 155
      match jGetD g.enrichedAt "Recently" with
      | .null => .error "TypeError: slicing None enriched timestamp"
      | .str ea =>
        .ok ("<!DOCTYPE html>\n<html lang=\"en\">\n<head>\n    <meta charset=\"UTF-8\">\n    <meta name=\"viewport\" content=\"width=device-width, initial-scale=1.0\">\n    <title>"
          ++ title
          ++ "</title>\n    <meta name=\"description\" content=\"" ++ desc
          ++ "\">\n    <meta property=\"og:title\" content=\"" ++ g.title
          ++ "\">\n    <meta property=\"og:description\" content=\"" ++ desc
          ++ "\">\n    <meta property=\"og:type\" content=\"article\">\n    <meta property=\"og:url\" content=\""
          ++ siteUrl ++ "/grants/" ++ slug
          ++ ".html\">\n    <link rel=\"canonical\" href=\"" ++ siteUrl ++ "/grants/" ++ slug
          ++ ".html\">\n    <script src=\"https://cdn.tailwindcss.com\"></script>\n    <style>@import url(\x27https://fonts.googleapis.com/css2?family=Inter:wght@400;500;600;700&display=swap\x27); body \x7b font-family: \x27Inter\x27, sans-serif; \x7d</style>\n</head>\n<body class=\"bg-slate-50 text-slate-800 min-h-screen\">\n\n    <nav class=\"bg-white border-b border-gray-200\">\n        <div class=\"max-w-4xl mx-auto px-4 py-4 flex items-center justify-between\">\n            <a href=\"../index.html\" class=\"text-xl font-bold text-slate-800 flex items-center gap-2\">💙 "
          ++ brand
          ++ "</a>\n            <a href=\"../index.html\" class=\"text-sm text-slate-500 hover:text-teal-600 font-medium\">&larr; Back to Directory</a>\n        </div>\n    </nav>\n\n    <main class=\"max-w-4xl mx-auto px-4 py-8\">\n        <div class=\"bg-white rounded-xl shadow-sm border border-gray-100 p-8 border-l-4 border-l-"
          ++ ni.color
          ++ "-500\">\n            <span class=\"inline-block bg-" ++ ni.color
          ++ "-50 text-" ++ ni.color
          ++ "-700 text-xs font-bold uppercase px-3 py-1 rounded-full mb-4 border border-"
          ++ ni.color ++ "-100\">" ++ ni.emoji ++ " " ++ ni.label
          ++ "</span>\n\n            <h1 class=\"text-3xl font-bold text-slate-900 mb-6 leading-tight\">"
          ++ g.title
          ++ "</h1>\n\n            <div class=\"grid grid-cols-2 md:grid-cols-4 gap-4 mb-8\">\n                <div class=\"bg-slate-50 rounded-lg p-4 border border-slate-100\">\n                    <p class=\"text-xs text-slate-500 uppercase font-semibold mb-1\">Amount</p>\n                    <p class=\"text-lg font-bold text-teal-700\">"
          ++ amount
          ++ "</p>\n                </div>\n                <div class=\"bg-slate-50 rounded-lg p-4 border border-slate-100\">\n                    <p class=\"text-xs text-slate-500 uppercase font-semibold mb-1\">Deadline</p>\n                    <p class=\"text-lg font-bold text-amber-700\">"
          ++ deadline
          ++ "</p>\n                </div>\n                <div class=\"bg-slate-50 rounded-lg p-4 border border-slate-100\">\n                    <p class=\"text-xs text-slate-500 uppercase font-semibold mb-1\">Source</p>\n                    <p class=\"text-sm font-semibold text-slate-700 truncate\">"
          ++ source
          ++ "</p>\n                </div>\n                <div class=\"bg-slate-50 rounded-lg p-4 border border-slate-100\">\n                    <p class=\"text-xs text-slate-500 uppercase font-semibold mb-1\">Category</p>\n                    <p class=\"text-sm font-semibold text-slate-700\">"
          ++ ni.label
          ++ "</p>\n                </div>\n            </div>\n\n            <div class=\"prose max-w-none text-slate-600 mb-8\">\n                <h2 class=\"text-lg font-bold text-slate-800 mb-3\">About This Opportunity</h2>\n                <p class=\"leading-relaxed mb-6\">"
          ++ summary
          ++ "</p>\n                \n                <h2 class=\"text-lg font-bold text-slate-800 mb-3\">Eligibility Requirements</h2>\n                <div class=\"bg-blue-50 border-l-4 border-blue-400 p-4 rounded-r mb-6\">\n                    <p class=\"text-blue-900 text-sm\">"
          ++ eligibility
          ++ "</p>\n                </div>\n            </div>\n\n            <div class=\"flex flex-col sm:flex-row gap-4 border-t border-gray-100 pt-6\">\n                <a href=\""
          ++ link
          ++ "\" target=\"_blank\" rel=\"noopener\" class=\"inline-flex justify-center items-center bg-teal-600 text-white px-6 py-3 rounded-lg font-semibold hover:bg-teal-700 transition shadow-sm hover:shadow\">\n                    Apply on Official Site &rarr;\n                </a>\n                <a href=\"../index.html\" class=\"inline-flex justify-center items-center bg-white text-slate-600 border border-gray-200 px-6 py-3 rounded-lg font-semibold hover:bg-gray-50 transition\">\n                    Browse More Grants\n                </a>\n            </div>\n        </div>\n\n        <p class=\"text-xs text-gray-400 mt-8 text-center\">\n            Information gathered from public sources. Last verified: "
          ++ pyTake ea 10
          ++ ".<br>\n            ALWAYS verify details, deadlines, and requirements on the official application page.\n        </p>\n    </main>\n\n    <footer class=\"bg-white border-t border-gray-200 py-8 mt-12\">\n        <div class=\"max-w-4xl mx-auto px-4 text-center text-sm text-gray-500\">\n            <p>&copy; 2026 "
          ++ brand
          ++ ". A free community resource for allied health professionals.</p>\n        </div>\n    </footer>\n\n</body>\n</html>")

/-- The junk title denylist of build.filter_junk (the source set literal
lists "awards and honors" twice; membership is unaffected). -/
def junkTitles : List String :=
  ["funding opportunities", "view awardees", "awards and honors",
   "aotf award recipients", "start a fundraiser", "how to apply",
   "external research funding", "pte awards", "available scholarships",
   "grants", "scholarships", "awards and honors", "apply now"]

/-- build.filter_junk: drop denylisted titles, titles shorter than 5
characters, and records whose link starts with "#". -/
def filterJunk : List Grant → List Grant
  | [] => []
  | g :: t =>
    if junkTitles.contains (pyStrip (pyLower g.title)) then filterJunk t
    else if g.title.length < 5 then filterJunk t
    else if strStarts "#" (g.link.getD "") then filterJunk t
    else g :: filterJunk t

/-- The dedup key of build.dedupe_grants:
lowercased-stripped title, a bar, and the source (missing source gives the
empty string). -/
def dkey (g : Grant) : String := pyStrip (pyLower g.title) ++ "|" ++ g.source.getD ""

/-- Loop of build.dedupe_grants with the seen set modelled as a list. -/
def dedupeGo (seen : List String) : List Grant → List Grant
  | [] => []
  | g :: t =>
    if seen.contains (dkey g) then dedupeGo seen t
    else g :: dedupeGo (dkey g :: seen) t

/-- build.dedupe_grants. -/
def dedupeGrants (grants : List Grant) : List Grant := dedupeGo [] grants

/-- Modelled from the spec wording of the dedup stage: keep only the first
occurrence per key, preserving original relative order among survivors. -/
def dedupeFirstKeep : List Grant → List Grant
  | [] => []
  | g :: t => g :: dedupeFirstKeep (t.filter (fun h => !(dkey h == dkey g)))
termination_by l => l.length
decreasing_by exact Nat.lt_succ_of_le (List.length_filter_le _ _)

/-- Python truthiness of the amount field: None, a missing key and the
empty string are falsy. -/
def truthyAmount : Option Jv → Bool
  | none => false
  | some .null => false
  | some (.str s) => s != ""

/-- Lexicographic strict comparison of char lists by code point: how
Python compares the strings inside the sort key tuples. -/
def listLtB : List Char → List Char → Bool
  | [], [] => false
  | [], _ :: _ => true
  | _ :: _, [] => false
  | a :: s, b :: t =>
    if a.toNat < b.toNat then true
    else if b.toNat < a.toNat then false
    else listLtB s t

/-- Strict string comparison by code point. -/
def strLtB (a b : String) : Bool := listLtB a.toList b.toList

/-- First component of the sort key of build(): 0 if the amount field is
truthy else 1. -/
def sortKeyRank (g : Grant) : Nat := if truthyAmount g.amount then 0 else 1

/-- Python tuple comparison of the sort keys
(rank, niche or "ZZZ", title): is the key of `a` at most the key of `b`. -/
def keyLe (a b : Grant) : Bool :=
  if sortKeyRank a < sortKeyRank b then true
  else if sortKeyRank b < sortKeyRank a then false
  else if strLtB (a.niche.getD "ZZZ") (b.niche.getD "ZZZ") then true
  else if strLtB (b.niche.getD "ZZZ") (a.niche.getD "ZZZ") then false
  else !(strLtB b.title a.title)

/-- Stable insertion of a later-arriving record: it goes after every
already-placed record with a key at most its own. -/
def insertG (g : Grant) : List Grant → List Grant
  | [] => [g]
  | h :: t => if keyLe h g then h :: insertG g t else g :: h :: t

/-- The sort step of build(): list.sort with the key lambda.  Python`s
Timsort is a stable ascending comparison sort, and a stable ascending
sort is unique, so this stable insertion sort computes the same list. -/
def sortGrants (l : List Grant) : List Grant := l.foldl (fun acc g => insertG g acc) []

/-- Characters kept by slugify: [a-z0-9]. -/
def isSlugKeep (c : Char) : Bool := ('a' ≤ c && c ≤ 'z') || isDig c

/-- re.sub("[^a-z0-9]+", "-", s): each maximal run of other characters
becomes a single hyphen.  The flag records being inside such a run. -/
def subRunsF : Bool → List Char → List Char
  | _, [] => []
  | inRun, c :: t =>
    if isSlugKeep c then c :: subRunsF false t
    else if inRun then subRunsF true t
    else '-' :: subRunsF true t

/-- str.strip("-"): remove leading and trailing hyphens. -/
def stripDash (l : List Char) : List Char :=
  ((l.dropWhile (fun c => c == '-')).reverse.dropWhile (fun c => c == '-')).reverse

/-- build.slugify: lowercase, collapse non-[a-z0-9] runs to hyphens, strip
hyphens, truncate to 80 characters. -/
def slugify (text : String) : String :=
  ((stripDash (subRunsF false (pyLower text).toList)).take 80).asString

/-- Lookup in the slug_counts dict, modelled as an association list. -/
def dGet (d : List (String × Nat)) (k : String) : Option Nat :=
  match d.find? (fun p => p.1 == k) with
  | some p => some p.2
  | none => none

/-- Update of the slug_counts dict. -/
def dSet : List (String × Nat) → String → Nat → List (String × Nat)
  | [], k, v => [(k, v)]
  | p :: t, k, v => if p.1 == k then (k, v) :: t else p :: dSet t k v

/-- The slug-assignment loop of build(): on a base slug seen before,
increment its counter and append it; otherwise assign the base itself and
initialise the counter to 0. -/
def slugLoop (counts : List (String × Nat)) : List Grant → List String
  | [] => []
  | g :: t =>
    let base := slugify g.title
    match dGet counts base with
    | some n => (base ++ "-" ++ Nat.repr (n + 1)) :: slugLoop (dSet counts base (n + 1)) t
    | none => base :: slugLoop (dSet counts base 0) t

/-- Slugs assigned to a record list by build(), in order. -/
def assignSlugs (grants : List Grant) : List String := slugLoop [] grants

/-- Number of records in `l` whose base slug is `b`. -/
def occCount (b : String) (l : List Grant) : Nat :=
  (l.filter (fun g => slugify g.title == b)).length

/-- The slug a record receives when `n` same-base records precede it:
the base itself for the first occurrence, base-n afterwards. -/
def slugName (b : String) (n : Nat) : String :=
  if n = 0 then b else b ++ "-" ++ Nat.repr n

/-- Modelled from the spec wording of the slug assigner: each record gets
`slugName` of its base slug applied to the number of earlier same-base
records (`processed` accumulates the records already handled). -/
def slugSpec (processed : List Grant) : List Grant → List String
  | [] => []
  | g :: t =>
    slugName (slugify g.title) (occCount (slugify g.title) processed)
      :: slugSpec (processed ++ [g]) t

/-- One sitemap entry for a grant page, from build.build_sitemap. -/
def slugEntry (slug : String) : String :=
  "  <url><loc>" ++ (siteUrl ++ "/grants/" ++ slug ++ ".html")
    ++ "</loc><changefreq>weekly</changefreq><priority>0.8</priority></url>"

/-- The fixed home entry of build.build_sitemap. -/
def homeEntry : String :=
  "  <url><loc>" ++ siteUrl ++ "/</loc><changefreq>daily</changefreq><priority>1.0</priority></url>"

/-- The fixed resources entry of build.build_sitemap (the source appends
it unconditionally). -/
def resourcesEntry : String :=
  "  <url><loc>" ++ siteUrl ++ "/resources.html</loc><changefreq>weekly</changefreq><priority>0.9</priority></url>"

/-- The urls list of build.build_sitemap. -/
def sitemapUrls (slugs : List String) : List String :=
  homeEntry :: resourcesEntry :: slugs.map slugEntry

/-- str.join with a newline separator. -/
def joinNl : List String → String
  | [] => ""
  | [x] => x
  | x :: y :: t => x ++ "\n" ++ joinNl (y :: t)

/-- build.build_sitemap: the XML wrapper around the joined url entries. -/
def buildSitemap (slugs : List String) : String :=
  "<?xml version=\"1.0\" encoding=\"UTF-8\"?>\n<urlset xmlns=\"http://www.sitemaps.org/schemas/sitemap/0.9\">\n"
    ++ joinNl (sitemapUrls slugs) ++ "\n</urlset>"

/-- Outcome of the requests.get call for one record: either the request
raised (timeout, connection error, any transport exception) or it
returned a status code and a parsed page. -/
inductive FetchOutcome where
  | exc : FetchOutcome
  | ok (status : Nat) (page : Page) : FetchOutcome

/-- Did the fetch fail (raise, or return a non-200 status)? -/
def fetchFailedB : FetchOutcome → Bool
  | .exc => true
  | .ok status _ => status != 200

/-- Wrap an extractor result the way enricher.enrich stores it in the
record: None becomes a present null field. -/
def optJv : Option String → Jv
  | none => .null
  | some s => .str s

/-- Body of the per-record loop of enricher.enrich: on a raised request or
a non-200 status the record is appended unchanged; on success the four
extracted fields and the timestamp are assigned. -/
def enrichStep (fetch : Grant → FetchOutcome) (now : String) (g : Grant) : Grant :=
  match fetch g with
  | .exc => g
  | .ok status page =>
    if status != 200 then g
    else
      { g with
        deadline := some (optJv (extractDeadline page.text)),
        amount := some (optJv (extractAmount page.text)),
        eligibility := some (optJv (extractEligibility page.text)),
        summary := some (optJv (extractSummary page)),
        enrichedAt := some (.str now) }

/-- enricher.enrich over a record list: every branch of the loop appends
exactly one record, so the stage is a map. -/
def enrich (fetch : Grant → FetchOutcome) (now : String) (grants : List Grant) : List Grant :=
  grants.map (enrichStep fetch now)

/-- Substring scan: does the haystack contain the needle? -/
def listStartsWith : List Char → List Char → Bool
  | [], _ => true
  | _ :: _, [] => false
  | n :: nt, c :: ct => n == c && listStartsWith nt ct

/-- Scan every suffix for the needle as a prefix. -/
def scanHas (needle : List Char) : List Char → Bool
  | [] => needle.isEmpty
  | c :: t => listStartsWith needle (c :: t) || scanHas needle t

/-- Does the string contain the given substring? -/
def strContainsStr (hay needle : String) : Bool := scanHas needle.toList hay.toList

/-- Progress-and-count step of the substring counter for the token
"<url>": the first component is how many needle characters are matched so
far, the second the number of completed occurrences. -/
def urlStep (st : Nat × Nat) (c : Char) : Nat × Nat :=
  if st.1 = 0 then (if c = '<' then (1, st.2) else (0, st.2))
  else if st.1 = 1 then (if c = 'u' then (2, st.2) else if c = '<' then (1, st.2) else (0, st.2))
  else if st.1 = 2 then (if c = 'r' then (3, st.2) else if c = '<' then (1, st.2) else (0, st.2))
  else if st.1 = 3 then (if c = 'l' then (4, st.2) else if c = '<' then (1, st.2) else (0, st.2))
  else (if c = '>' then (0, st.2 + 1) else if c = '<' then (1, st.2) else (0, st.2))

/-- Number of occurrences of the token "<url>" in a string (automaton
scan; the token has no repeated prefix, so the restart logic is exact). -/
def urlCount (s : String) : Nat := (s.toList.foldl urlStep (0, 0)).2

/-- Does a successful render contain the given substring (false on an
error)? -/
def exceptContains (e : Except String String) (needle : String) : Bool :=
  match e with
  | .ok s => strContainsStr s needle
  | .error _ => false

/-- Syntactic check that every successful match of the pattern must
consume at least one digit character.  Conservative: literals and starred
or optional subpatterns report false. -/
def needsDigit : RE → Bool
  | .eps => false
  | .lit _ => false
  | .litCI _ => false
  | .cls cc => cc == .digit
  | .seq a b => needsDigit a || needsDigit b
  | .alt a b => needsDigit a && needsDigit b
  | .star _ => false
  | .starL _ => false
  | .opt _ => false
  | .rep r low _ => (low != 0) && needsDigit r
  | .grp r => needsDigit r

/-- State-transition part of urlStep, on the match-progress state alone. -/
def urlState (s : Nat) (c : Char) : Nat :=
  if s = 0 then (if c = '<' then 1 else 0)
  else if s = 1 then (if c = 'u' then 2 else if c = '<' then 1 else 0)
  else if s = 2 then (if c = 'r' then 3 else if c = '<' then 1 else 0)
  else if s = 3 then (if c = 'l' then 4 else if c = '<' then 1 else 0)
  else (if c = '>' then 0 else if c = '<' then 1 else 0)

/-- Count increment of urlStep: 1 exactly when the token "<url>" is
completed by this character. -/
def urlInc (s : Nat) (c : Char) : Nat :=
  if s = 0 then 0 else if s = 1 then 0 else if s = 2 then 0 else if s = 3 then 0
  else (if c = '>' then 1 else 0)

/-- Run the automaton from a given state, returning the final state and
the number of completed "<url>" tokens along the way.  This is the fold
of urlStep with the count accumulated separately, which lets concrete
segments evaluate even under a symbolic running total. -/
def urlScan (s : Nat) : List Char → Nat × Nat
  | [] => (s, 0)
  | c :: t =>
    let r := urlScan (urlState s c) t
    (r.1, urlInc s c + r.2)

/-!
Theorems.  The general lemmas come first: decimal-numeral facts used by
the slug claims, then per-claim developments.
-/

theorem charToNat_inj {a b : Char} (h : a.toNat = b.toNat) : a = b := by
  have ha := Char.ofNat_toNat a
  have hb := Char.ofNat_toNat b
  rw [← ha, ← hb, h]

theorem digitChar_spec :
    ∀ k, k < 10 → isDig (Nat.digitChar k) = true ∧ (Nat.digitChar k).toNat - 48 = k := by
  decide

theorem digitsVal_append_one (pre : List Char) (d : Char) :
    digitsVal (pre ++ [d]) = 10 * digitsVal pre + (d.toNat - 48) := by
  simp [digitsVal, List.foldl_append]

theorem tdcSpec :
    ∀ fuel n ds, n < fuel →
      ∃ pre, Nat.toDigitsCore 10 fuel n ds = pre ++ ds ∧ pre ≠ [] ∧
        (∀ c ∈ pre, isDig c = true) ∧ digitsVal pre = n := by
  intro fuel
  induction fuel with
  | zero => intro n ds h; omega
  | succ f ih =>
    intro n ds h
    by_cases h0 : n / 10 = 0
    · have hn : n < 10 := by omega
      refine ⟨[Nat.digitChar (n % 10)], ?_, by simp, ?_, ?_⟩
      · simp [Nat.toDigitsCore, h0]
      · intro c hc
        simp only [List.mem_singleton] at hc
        subst hc
        exact (digitChar_spec (n % 10) (Nat.mod_lt n (by norm_num))).1
      · have hv := (digitChar_spec (n % 10) (Nat.mod_lt n (by omega))).2
        have : n % 10 = n := Nat.mod_eq_of_lt hn
        simp [digitsVal]
        omega
    · have hlt : n / 10 < f := by omega
      obtain ⟨pre, he, hne, hdig, hval⟩ := ih (n / 10) (Nat.digitChar (n % 10) :: ds) hlt
      refine ⟨pre ++ [Nat.digitChar (n % 10)], ?_, by simp, ?_, ?_⟩
      · rw [show Nat.toDigitsCore 10 (f + 1) n ds
              = Nat.toDigitsCore 10 f (n / 10) (Nat.digitChar (n % 10) :: ds) by
            simp [Nat.toDigitsCore, h0]]
        rw [he]
        simp
      · intro c hc
        rcases List.mem_append.mp hc with hc | hc
        · exact hdig c hc
        · simp only [List.mem_singleton] at hc
          subst hc
          exact (digitChar_spec (n % 10) (Nat.mod_lt n (by omega))).1
      · rw [digitsVal_append_one, hval]
        have hv := (digitChar_spec (n % 10) (Nat.mod_lt n (by omega))).2
        have := Nat.div_add_mod n 10
        omega

theorem reprVal (n : Nat) :
    digitsVal (Nat.repr n).toList = n ∧ (Nat.repr n).toList ≠ [] ∧
      ∀ c ∈ (Nat.repr n).toList, isDig c = true := by
  obtain ⟨pre, he, hne, hdig, hval⟩ := tdcSpec (n + 1) n [] (Nat.lt_succ_self n)
  have hr : Nat.repr n = pre.asString := by
    show (Nat.toDigits 10 n).asString = pre.asString
    rw [show Nat.toDigits 10 n = Nat.toDigitsCore 10 (n + 1) n [] from rfl, he]
    simp
  rw [hr]
  refine ⟨?_, ?_, ?_⟩
  · rw [List.toList_asString]; exact hval
  · rw [List.toList_asString]; exact hne
  · rw [List.toList_asString]; exact hdig

theorem reprInj {n m : Nat} (h : Nat.repr n = Nat.repr m) : n = m := by
  have h2 : (Nat.repr n).toList = (Nat.repr m).toList := by rw [h]
  have hn := (reprVal n).1
  have hm := (reprVal m).1
  rw [h2] at hn
  omega

theorem reprLenPos (n : Nat) : 0 < (Nat.repr n).length := by
  have := (reprVal n).2.1
  have hl : (Nat.repr n).length = (Nat.repr n).toList.length := rfl
  rw [hl]
  cases hres : (Nat.repr n).toList with
  | nil => exact absurd hres this
  | cons a t => simp

theorem dGet_nil (k : String) : dGet [] k = none := rfl

theorem dGet_cons (p : String × Nat) (t : List (String × Nat)) (k : String) :
    dGet (p :: t) k = if p.1 = k then some p.2 else dGet t k := by
  simp only [dGet, List.find?]
  by_cases h : p.1 = k
  · simp [h]
  · have hb : (p.1 == k) = false := by simpa using h
    simp [hb, h]

theorem dSet_cons (p : String × Nat) (t : List (String × Nat)) (k : String) (v : Nat) :
    dSet (p :: t) k v = if p.1 = k then (k, v) :: t else p :: dSet t k v := by
  by_cases h : p.1 = k
  · have hb : (p.1 == k) = true := by simpa using h
    simp [dSet, hb, h]
  · have hb : (p.1 == k) = false := by simpa using h
    simp [dSet, hb, h]

theorem dGet_dSet (d : List (String × Nat)) (k k' : String) (v : Nat) :
    dGet (dSet d k v) k' = if k' = k then some v else dGet d k' := by
  induction d with
  | nil =>
    rw [show dSet [] k v = [(k, v)] from rfl, dGet_cons]
    by_cases h : k' = k
    · simp [h]
    · have h2 : ¬ (k = k') := fun e => h e.symm
      simp [h, h2, dGet_nil]
  | cons p t ih =>
    rw [dSet_cons]
    by_cases hp : p.1 = k
    · rw [if_pos hp, dGet_cons]
      by_cases h : k' = k
      · simp [h]
      · have h2 : ¬ (k = k') := fun e => h e.symm
        rw [if_neg h2, if_neg h, dGet_cons]
        have h3 : ¬ (p.1 = k') := by rw [hp]; exact h2
        rw [if_neg h3]
    · rw [if_neg hp, dGet_cons]
      by_cases hq : p.1 = k'
      · have hk : ¬ (k' = k) := fun e => hp (hq.trans e)
        rw [if_pos hq, if_neg hk, dGet_cons, if_pos hq]
      · rw [if_neg hq, ih]
        by_cases h : k' = k
        · simp [h]
        · rw [if_neg h, if_neg h, dGet_cons, if_neg hq]

theorem occ_app (b : String) (x y : List Grant) :
    occCount b (x ++ y) = occCount b x + occCount b y := by
  simp [occCount, List.filter_append]

theorem occ_single (b : String) (g : Grant) :
    occCount b [g] = if slugify g.title = b then 1 else 0 := by
  by_cases h : slugify g.title = b
  · simp [occCount, List.filter, h]
  · have hb : (slugify g.title == b) = false := by simpa using h
    simp [occCount, List.filter, hb, h]

theorem slugLoop_eq_spec :
    ∀ (rest : List Grant) (counts : List (String × Nat)) (processed : List Grant),
      (∀ b, dGet counts b =
        if occCount b processed = 0 then none else some (occCount b processed - 1)) →
      slugLoop counts rest = slugSpec processed rest := by
  intro rest
  induction rest with
  | nil => intro counts processed _; rfl
  | cons g t ih =>
    intro counts processed h
    have hb := h (slugify g.title)
    by_cases h0 : occCount (slugify g.title) processed = 0
    · rw [h0] at hb
      simp only [if_pos rfl] at hb
      have hnext : ∀ b, dGet (dSet counts (slugify g.title) 0) b =
          if occCount b (processed ++ [g]) = 0 then none
          else some (occCount b (processed ++ [g]) - 1) := by
        intro b
        rw [dGet_dSet, occ_app, occ_single]
        by_cases hbb : b = slugify g.title
        · subst hbb
          simp [h0]
        · have h2 : ¬ (slugify g.title = b) := fun e => hbb e.symm
          simp only [h2, if_false, if_neg hbb, Nat.add_zero]
          exact h b
      simp only [slugLoop, hb, slugSpec, slugName, h0, if_pos rfl]
      exact congrArg _ (ih _ _ hnext)
    · obtain ⟨m, hm⟩ : ∃ m, occCount (slugify g.title) processed = m + 1 :=
        ⟨occCount (slugify g.title) processed - 1, by omega⟩
      rw [hm] at hb
      simp only [Nat.succ_ne_zero, if_false, Nat.add_sub_cancel] at hb
      have hnext : ∀ b, dGet (dSet counts (slugify g.title) (m + 1)) b =
          if occCount b (processed ++ [g]) = 0 then none
          else some (occCount b (processed ++ [g]) - 1) := by
        intro b
        rw [dGet_dSet, occ_app, occ_single]
        by_cases hbb : b = slugify g.title
        · subst hbb
          simp [hm]
        · have h2 : ¬ (slugify g.title = b) := fun e => hbb e.symm
          simp only [h2, if_false, if_neg hbb, Nat.add_zero]
          exact h b
      simp only [slugLoop, hb, slugSpec, slugName, hm, Nat.succ_ne_zero, if_false]
      exact congrArg _ (ih _ _ hnext)

theorem slugSpec_get :
    ∀ (l processed : List Grant) (i : Nat),
      (slugSpec processed l)[i]? = (l[i]?).map
        (fun g => slugName (slugify g.title)
          (occCount (slugify g.title) (processed ++ l.take i))) := by
  intro l
  induction l with
  | nil => intro processed i; simp [slugSpec]
  | cons g t ih =>
    intro processed i
    cases i with
    | zero => simp [slugSpec]
    | succ n =>
      simp only [slugSpec, List.getElem?_cons_succ, List.take_succ_cons]
      rw [ih (processed ++ [g]) n]
      simp [List.append_assoc]

theorem occ_take_lt {l : List Grant} {i j : Nat} (hij : i < j) (hi : i < l.length)
    (b : String) (hb : slugify (l.get ⟨i, hi⟩).title = b) :
    occCount b (l.take i) < occCount b (l.take j) := by
  have h1 : l.take (i + 1) = l.take i ++ (l.drop i).take 1 := List.take_add l i 1
  have hdrop : l.drop i = l.get ⟨i, hi⟩ :: l.drop (i + 1) := by
    rw [List.drop_eq_getElem_cons hi]
    simp
  have h2 : (l.drop i).take 1 = [l.get ⟨i, hi⟩] := by rw [hdrop]; rfl
  have h3 : occCount b (l.take (i + 1)) = occCount b (l.take i) + 1 := by
    rw [h1, h2, occ_app, occ_single, hb]
    simp
  have h4 : occCount b (l.take j)
      = occCount b (l.take (i + 1)) + occCount b ((l.drop (i + 1)).take (j - (i + 1))) := by
    conv_lhs => rw [show j = (i + 1) + (j - (i + 1)) by omega]
    rw [List.take_add, occ_app]
  omega

theorem slugName_ne (b : String) {n m : Nat} (h : n < m) :
    slugName b n ≠ slugName b m := by
  intro he
  have hm : ¬ (m = 0) := by omega
  have hem : slugName b m = b ++ "-" ++ Nat.repr m := by simp [slugName, hm]
  by_cases hn : n = 0
  · subst hn
    have he0 : slugName b 0 = b := by simp [slugName]
    rw [he0, hem] at he
    have hlen := congrArg String.length he
    rw [String.length_append, String.length_append,
        show ("-" : String).length = 1 from rfl] at hlen
    have hp := reprLenPos m
    omega
  · have hen : slugName b n = b ++ "-" ++ Nat.repr n := by simp [slugName, hn]
    rw [hen, hem] at he
    have hdata := congrArg String.data he
    simp only [String.data_append, List.append_assoc] at hdata
    have hr : (Nat.repr n).data = (Nat.repr m).data := by
      have h1 := List.append_cancel_left hdata
      exact List.append_cancel_left h1
    have := reprInj (String.toList_inj.mp hr)
    omega

/-- Claim C1, corrected.  The slug-assignment loop of build() assigns, on
the first occurrence of a base slug, the base itself (counter initialised
to 0) and, on a repeat, base-N with the incremented counter N — this is
the refinement `assignSlugs = slugSpec []`.  Any two records with the SAME
base slug always receive distinct slugs.  (The original claim said all
assigned slugs are pairwise distinct; records whose distinct base slugs
overlap with generated disambiguations can collide, see the
counterexample.) -/
theorem c1_slug_assignment_corrected :
    ∀ grants : List Grant,
      assignSlugs grants = slugSpec [] grants ∧
      ∀ (i j : Nat) (gi gj : Grant) (si sj : String), i < j →
        grants[i]? = some gi → grants[j]? = some gj →
        slugify gi.title = slugify gj.title →
        (assignSlugs grants)[i]? = some si →
        (assignSlugs grants)[j]? = some sj →
        si ≠ sj := by
  intro grants
  have hmain : assignSlugs grants = slugSpec [] grants := by
    apply slugLoop_eq_spec
    intro b
    simp [dGet_nil, occCount, List.filter]
  refine ⟨hmain, ?_⟩
  intro i j gi gj si sj hij hgi hgj hbase hsi hsj
  rw [hmain, slugSpec_get] at hsi hsj
  rw [hgi] at hsi
  rw [hgj] at hsj
  simp only [Option.map_some', Option.some_inj, List.nil_append] at hsi hsj
  have hi : i < grants.length := by
    rcases List.getElem?_eq_some_iff.mp hgi with ⟨h, _⟩
    exact h
  have hgiv : grants.get ⟨i, hi⟩ = gi := by
    rcases List.getElem?_eq_some_iff.mp hgi with ⟨h, he⟩
    simpa [List.get_eq_getElem] using he
  have hlt : occCount (slugify gi.title) (grants.take i)
      < occCount (slugify gi.title) (grants.take j) := by
    apply occ_take_lt hij hi
    rw [hgiv]
  rw [← hsi, ← hsj, ← hbase]
  exact slugName_ne _ hlt

set_option maxRecDepth 40000 in
/-- Counterexample to claim C1 as stated: three records that survive
dedup (distinct sources) and appear in exactly this order after the sort
step get the slugs grant-one, grant-one-1, grant-one-1 — the third record
collides with the second, because its base slug equals a generated
disambiguation. -/
theorem c1_counterexample :
    assignSlugs [{title := "Grant One", source := some "A"},
                 {title := "Grant One", source := some "B"},
                 {title := "Grant One 1", source := some "C"}]
        = ["grant-one", "grant-one-1", "grant-one-1"] ∧
      ¬ List.Nodup (assignSlugs [{title := "Grant One", source := some "A"},
                 {title := "Grant One", source := some "B"},
                 {title := "Grant One 1", source := some "C"}]) := by
  refine ⟨by decide, by decide⟩

set_option maxRecDepth 40000 in
/-- Witness for the corrected claim C1 at the two-record batch of the
spec: both titles slugify to summer-grant and the assigned slugs
summer-grant and summer-grant-1 differ. -/
theorem c1_witness : ("summer-grant" : String) ≠ "summer-grant-1" := by
  refine (c1_slug_assignment_corrected
      [{title := "Summer Grant"}, {title := "Summer  Grant!"}]).2 0 1
      {title := "Summer Grant"} {title := "Summer  Grant!"}
      "summer-grant" "summer-grant-1" (by omega)
      (by decide) (by decide) (by decide) (by decide) (by decide)

theorem dedupeFirstKeep_nil : dedupeFirstKeep [] = [] := by
  simp [dedupeFirstKeep]

theorem dedupeFirstKeep_cons (g : Grant) (t : List Grant) :
    dedupeFirstKeep (g :: t)
      = g :: dedupeFirstKeep (t.filter (fun h => !(dkey h == dkey g))) := by
  simp [dedupeFirstKeep]

theorem dedupeGo_eq :
    ∀ (t : List Grant) (seen : List String),
      dedupeGo seen t = dedupeFirstKeep (t.filter (fun h => !(seen.contains (dkey h)))) := by
  intro t
  induction t with
  | nil => intro seen; simp [dedupeGo, dedupeFirstKeep_nil]
  | cons g rest ih =>
    intro seen
    cases hc : seen.contains (dkey g) with
    | true =>
      have hm : dkey g ∈ seen := by simpa using hc
      simp only [dedupeGo, hc, if_true]
      rw [ih seen]
      congr 1
      simp [List.filter_cons, hm]
    | false =>
      have hm : ¬ (dkey g ∈ seen) := by simpa using hc
      simp only [dedupeGo, hc, Bool.false_eq_true, if_false]
      rw [ih (dkey g :: seen)]
      have hf : (g :: rest).filter (fun h => !(seen.contains (dkey h)))
          = g :: rest.filter (fun h => !(seen.contains (dkey h))) := by
        simp [List.filter_cons, hm]
      rw [hf, dedupeFirstKeep_cons]
      have hpred : rest.filter (fun h => !((dkey g :: seen).contains (dkey h)))
          = (rest.filter (fun h => !(seen.contains (dkey h)))).filter
              (fun h => !(dkey h == dkey g)) := by
        rw [List.filter_filter]
        apply List.filter_congr
        intro x _
        simp only [List.contains_cons, Bool.not_or, Bool.and_comm]
      exact congrArg (fun l => g :: dedupeFirstKeep l) hpred

/-- Claim C7, confirmed.  dedupe_grants keeps exactly the first occurrence
per key (lowercased-stripped title, bar, source-or-empty), preserving the
relative order of survivors — it equals the spec-side first-keep
recursion — and of two records with the same key the earlier one is the
one that survives. -/
theorem c7_dedupe_first_per_key :
    (∀ l : List Grant, dedupeGrants l = dedupeFirstKeep l) ∧
    (∀ g1 g2 : Grant, dkey g1 = dkey g2 → dedupeGrants [g1, g2] = [g1]) := by
  constructor
  · intro l
    show dedupeGo [] l = dedupeFirstKeep l
    rw [dedupeGo_eq]
    congr 1
    simp [List.filter_eq_self]
  · intro g1 g2 h
    simp [dedupeGrants, dedupeGo, List.contains_cons, h]

/-- Witness for claim C7: of two records sharing the dedup key, dedup
keeps exactly the earlier one. -/
theorem c7_witness :
    dedupeGrants [{title := "Therapy Grant", source := some "Org"},
                  {title := "  THERAPY grant ", source := some "Org"}]
      = [{title := "Therapy Grant", source := some "Org"}] :=
  c7_dedupe_first_per_key.2 _ _ (by decide)

/-- Claim C8, confirmed.  filter_junk removes a record exactly when its
lowercased, stripped title is in the denylist, or its raw title is
shorter than 5 characters, or its link (empty when missing) starts with
"#"; the record titled "Apply Now" is removed, the one titled
"Apply Now for the XYZ Award" is kept. -/
theorem c8_filter_junk :
    (∀ l : List Grant, filterJunk l = l.filter (fun g =>
        !(junkTitles.contains (pyStrip (pyLower g.title))
          || decide (g.title.length < 5)
          || strStarts "#" (g.link.getD "")))) ∧
    filterJunk [{title := "Apply Now", link := some "https://x.org/a"}] = [] ∧
    filterJunk [{title := "Apply Now for the XYZ Award", link := some "https://x.org/a"}]
      = [{title := "Apply Now for the XYZ Award", link := some "https://x.org/a"}] := by
  refine ⟨?_, by decide, by decide⟩
  intro l
  induction l with
  | nil => rfl
  | cons g t ih =>
    cases h1 : junkTitles.contains (pyStrip (pyLower g.title)) with
    | true =>
      have hm1 : pyStrip (pyLower g.title) ∈ junkTitles := by simpa using h1
      simp [filterJunk, h1, hm1, List.filter_cons, ih]
    | false =>
      have hm1 : ¬ (pyStrip (pyLower g.title) ∈ junkTitles) := by simpa using h1
      by_cases h2 : g.title.length < 5
      · simp [filterJunk, h1, hm1, h2, List.filter_cons, ih]
      · cases h3 : strStarts "#" (g.link.getD "") with
        | true => simp [filterJunk, h1, hm1, h2, h3, List.filter_cons, ih]
        | false => simp [filterJunk, h1, hm1, h2, h3, List.filter_cons, ih]

/-- Claim C10, confirmed.  When the fetch for a record raises or returns a
non-200 status, enrich appends that record unchanged and goes on; the
output always has one entry per input record. -/
theorem c10_fetch_failure_passthrough :
    ∀ (fetch : Grant → FetchOutcome) (now : String) (grants : List Grant),
      (enrich fetch now grants).length = grants.length ∧
      ∀ (i : Nat) (g : Grant), grants[i]? = some g → fetchFailedB (fetch g) = true →
        (enrich fetch now grants)[i]? = some g := by
  intro fetch now grants
  constructor
  · simp [enrich]
  · intro i g hg hf
    have hstep : enrichStep fetch now g = g := by
      unfold enrichStep
      cases hfo : fetch g with
      | exc => rfl
      | ok status page =>
        rw [hfo] at hf
        simp only [fetchFailedB] at hf
        simp [hf]
    rw [enrich, List.getElem?_map, hg]
    simp [hstep]

/-- Witness for claim C10 at a concrete failing fetch. -/
theorem c10_witness :
    (enrich (fun _ => FetchOutcome.exc) "2026-01-01" [{title := "Alpha Grant"}]).length = 1 ∧
    (enrich (fun _ => FetchOutcome.exc) "2026-01-01" [{title := "Alpha Grant"}])[0]?
      = some {title := "Alpha Grant"} := by
  have h := c10_fetch_failure_passthrough (fun _ => FetchOutcome.exc) "2026-01-01"
    [{title := "Alpha Grant"}]
  exact ⟨h.1, h.2 0 {title := "Alpha Grant"} (by decide) (by decide)⟩

theorem listLtB_cons_iff (x y : Char) (s t : List Char) :
    listLtB (x :: s) (y :: t) = true ↔
      x.toNat < y.toNat ∨ (x.toNat = y.toNat ∧ listLtB s t = true) := by
  simp only [listLtB]
  by_cases h1 : x.toNat < y.toNat
  · simp [h1]
  · by_cases h2 : y.toNat < x.toNat
    · rw [if_neg h1, if_pos h2]
      constructor
      · intro hf; cases hf
      · rintro (h | ⟨h, _⟩) <;> omega
    · rw [if_neg h1, if_neg h2]
      constructor
      · intro h; exact Or.inr ⟨by omega, h⟩
      · rintro (h | ⟨_, h⟩)
        · omega
        · exact h

theorem listLtB_nil_iff (b : List Char) : listLtB [] b = true ↔ b ≠ [] := by
  cases b <;> simp [listLtB]

theorem listLtB_nil_right (a : List Char) : listLtB a [] = false := by
  cases a <;> simp [listLtB]

theorem listLtB_asymm : ∀ {a b : List Char}, listLtB a b = true → listLtB b a = false := by
  intro a
  induction a with
  | nil =>
    intro b h
    exact listLtB_nil_right b
  | cons x s ih =>
    intro b h
    cases b with
    | nil => rw [listLtB_nil_right] at h; cases h
    | cons y t =>
      rcases (listLtB_cons_iff x y s t).mp h with h1 | ⟨h1, h2⟩
      · rw [Bool.eq_false_iff]
        intro hc
        rcases (listLtB_cons_iff y x t s).mp hc with h3 | ⟨h3, _⟩ <;> omega
      · rw [Bool.eq_false_iff]
        intro hc
        rcases (listLtB_cons_iff y x t s).mp hc with h3 | ⟨_, h4⟩
        · omega
        · rw [ih h2] at h4; cases h4

theorem listLtB_eq_of_not :
    ∀ {a b : List Char}, listLtB a b = false → listLtB b a = false → a = b := by
  intro a
  induction a with
  | nil =>
    intro b h1 _
    cases b with
    | nil => rfl
    | cons y t =>
      rw [show listLtB [] (y :: t) = true from by simp [listLtB]] at h1
      cases h1
  | cons x s ih =>
    intro b h1 h2
    cases b with
    | nil =>
      rw [show listLtB [] (x :: s) = true from by simp [listLtB]] at h2
      cases h2
    | cons y t =>
      have n1 : ¬ (listLtB (x :: s) (y :: t) = true) := by simp [h1]
      have n2 : ¬ (listLtB (y :: t) (x :: s) = true) := by simp [h2]
      rw [listLtB_cons_iff] at n1 n2
      push_neg at n1 n2
      have hxy : x.toNat = y.toNat := by
        rcases n1 with ⟨a1, _⟩
        rcases n2 with ⟨a2, _⟩
        omega
      have hst : s = t := by
        apply ih
        · have := n1.2 hxy
          simpa using this
        · have := n2.2 hxy.symm
          simpa using this
      rw [charToNat_inj hxy, hst]

theorem listLtB_trans :
    ∀ {a b c : List Char}, listLtB a b = true → listLtB b c = true → listLtB a c = true := by
  intro a
  induction a with
  | nil =>
    intro b c h1 h2
    cases b with
    | nil => rw [listLtB_nil_right] at h1; cases h1
    | cons y t =>
      cases c with
      | nil => rw [listLtB_nil_right] at h2; cases h2
      | cons z u => simp [listLtB]
  | cons x s ih =>
    intro b c h1 h2
    cases b with
    | nil => rw [listLtB_nil_right] at h1; cases h1
    | cons y t =>
      cases c with
      | nil => rw [listLtB_nil_right] at h2; cases h2
      | cons z u =>
        rw [listLtB_cons_iff] at h1 h2 ⊢
        rcases h1 with h1 | ⟨e1, r1⟩
        · rcases h2 with h2 | ⟨e2, _⟩
          · exact Or.inl (by omega)
          · exact Or.inl (by omega)
        · rcases h2 with h2 | ⟨e2, r2⟩
          · exact Or.inl (by omega)
          · exact Or.inr ⟨by omega, ih r1 r2⟩

theorem strLtB_asymm {a b : String} (h : strLtB a b = true) : strLtB b a = false :=
  listLtB_asymm h

theorem strLtB_eq_of_not {a b : String} (h1 : strLtB a b = false) (h2 : strLtB b a = false) :
    a = b :=
  String.toList_inj.mp (listLtB_eq_of_not h1 h2)

theorem strLtB_trans {a b c : String} (h1 : strLtB a b = true) (h2 : strLtB b c = true) :
    strLtB a c = true :=
  listLtB_trans h1 h2

theorem strLtB_le_trans {a b c : String} (h1 : strLtB b a = false) (h2 : strLtB c b = false) :
    strLtB c a = false := by
  by_cases hab : strLtB a b = true
  · by_cases hbc : strLtB b c = true
    · exact strLtB_asymm (strLtB_trans hab hbc)
    · have hbc2 : strLtB b c = false := by simpa using hbc
      rw [← strLtB_eq_of_not hbc2 h2]
      exact h1
  · have hab2 : strLtB a b = false := by simpa using hab
    rw [strLtB_eq_of_not hab2 h1]
    exact h2

theorem keyLe_iff (a b : Grant) : keyLe a b = true ↔
    (sortKeyRank a < sortKeyRank b) ∨
    (sortKeyRank a = sortKeyRank b
      ∧ strLtB (a.niche.getD "ZZZ") (b.niche.getD "ZZZ") = true) ∨
    (sortKeyRank a = sortKeyRank b ∧ a.niche.getD "ZZZ" = b.niche.getD "ZZZ"
      ∧ strLtB b.title a.title = false) := by
  unfold keyLe
  by_cases h1 : sortKeyRank a < sortKeyRank b
  · rw [if_pos h1]
    constructor
    · intro _; exact Or.inl h1
    · intro _; rfl
  · by_cases h2 : sortKeyRank b < sortKeyRank a
    · rw [if_neg h1, if_pos h2]
      constructor
      · intro hf; cases hf
      · rintro (h | ⟨he, _⟩ | ⟨he, _, _⟩) <;> omega
    · have he : sortKeyRank a = sortKeyRank b := by omega
      rw [if_neg h1, if_neg h2]
      by_cases h3 : strLtB (a.niche.getD "ZZZ") (b.niche.getD "ZZZ") = true
      · rw [if_pos h3]
        constructor
        · intro _; exact Or.inr (Or.inl ⟨he, h3⟩)
        · intro _; rfl
      · have h3f : strLtB (a.niche.getD "ZZZ") (b.niche.getD "ZZZ") = false := by
          simpa using h3
        rw [if_neg h3]
        by_cases h4 : strLtB (b.niche.getD "ZZZ") (a.niche.getD "ZZZ") = true
        · rw [if_pos h4]
          constructor
          · intro hf; cases hf
          · rintro (h | ⟨_, hx⟩ | ⟨_, hnn, _⟩)
            · omega
            · rw [h3f] at hx; cases hx
            · rw [hnn] at h3f
              rw [hnn] at h4
              rw [h3f] at h4
              cases h4
        · have h4f : strLtB (b.niche.getD "ZZZ") (a.niche.getD "ZZZ") = false := by
            simpa using h4
          rw [if_neg h4]
          have hnn := strLtB_eq_of_not h3f h4f
          constructor
          · intro ht
            exact Or.inr (Or.inr ⟨he, hnn, by simpa using ht⟩)
          · rintro (h | ⟨_, hx⟩ | ⟨_, _, ht⟩)
            · omega
            · rw [h3f] at hx; cases hx
            · simpa using ht

theorem keyLe_total (a b : Grant) : keyLe a b = true ∨ keyLe b a = true := by
  rw [keyLe_iff, keyLe_iff]
  by_cases h1 : sortKeyRank a < sortKeyRank b
  · exact Or.inl (Or.inl h1)
  · by_cases h2 : sortKeyRank b < sortKeyRank a
    · exact Or.inr (Or.inl h2)
    · have he : sortKeyRank a = sortKeyRank b := by omega
      by_cases h3 : strLtB (a.niche.getD "ZZZ") (b.niche.getD "ZZZ") = true
      · exact Or.inl (Or.inr (Or.inl ⟨he, h3⟩))
      · have h3f : strLtB (a.niche.getD "ZZZ") (b.niche.getD "ZZZ") = false := by
          simpa using h3
        by_cases h4 : strLtB (b.niche.getD "ZZZ") (a.niche.getD "ZZZ") = true
        · exact Or.inr (Or.inr (Or.inl ⟨he.symm, h4⟩))
        · have h4f : strLtB (b.niche.getD "ZZZ") (a.niche.getD "ZZZ") = false := by
            simpa using h4
          have hnn := strLtB_eq_of_not h3f h4f
          by_cases h5 : strLtB b.title a.title = true
          · exact Or.inr (Or.inr (Or.inr ⟨he.symm, hnn.symm, strLtB_asymm h5⟩))
          · have h5f : strLtB b.title a.title = false := by simpa using h5
            exact Or.inl (Or.inr (Or.inr ⟨he, hnn, h5f⟩))

theorem keyLe_trans {a b c : Grant} (h1 : keyLe a b = true) (h2 : keyLe b c = true) :
    keyLe a c = true := by
  rw [keyLe_iff] at h1 h2 ⊢
  rcases h1 with h1 | ⟨e1, n1⟩ | ⟨e1, q1, t1⟩
  · rcases h2 with h2 | ⟨e2, _⟩ | ⟨e2, _, _⟩ <;> exact Or.inl (by omega)
  · rcases h2 with h2 | ⟨e2, n2⟩ | ⟨e2, q2, t2⟩
    · exact Or.inl (by omega)
    · exact Or.inr (Or.inl ⟨by omega, strLtB_trans n1 n2⟩)
    · exact Or.inr (Or.inl ⟨by omega, q2 ▸ n1⟩)
  · rcases h2 with h2 | ⟨e2, n2⟩ | ⟨e2, q2, t2⟩
    · exact Or.inl (by omega)
    · exact Or.inr (Or.inl ⟨by omega, q1 ▸ n2⟩)
    · exact Or.inr (Or.inr ⟨by omega, q1.trans q2, strLtB_le_trans t1 t2⟩)

theorem insertG_perm (g : Grant) (l : List Grant) :
    List.Perm (insertG g l) (g :: l) := by
  induction l with
  | nil => simp [insertG]
  | cons h t ih =>
    simp only [insertG]
    by_cases hc : keyLe h g = true
    · rw [if_pos hc]
      exact (ih.cons h).trans (List.Perm.swap g h t)
    · rw [if_neg hc]

theorem insertG_pairwise (g : Grant) (l : List Grant)
    (hl : List.Pairwise (fun a b => keyLe a b = true) l) :
    List.Pairwise (fun a b => keyLe a b = true) (insertG g l) := by
  induction l with
  | nil => simp [insertG]
  | cons h t ih =>
    rcases List.pairwise_cons.mp hl with ⟨hh, ht⟩
    simp only [insertG]
    by_cases hc : keyLe h g = true
    · rw [if_pos hc]
      refine List.pairwise_cons.mpr ⟨?_, ih ht⟩
      intro x hx
      have hmem : x = g ∨ x ∈ t := by
        have := (insertG_perm g t).mem_iff.mp hx
        simpa using this
      rcases hmem with rfl | hxm
      · exact hc
      · exact hh x hxm
    · rw [if_neg hc]
      refine List.pairwise_cons.mpr ⟨?_, hl⟩
      intro x hx
      have hg : keyLe g h = true := by
        rcases keyLe_total g h with h5 | h5
        · exact h5
        · exact absurd h5 hc
      rcases List.mem_cons.mp hx with rfl | hxm
      · exact hg
      · exact keyLe_trans hg (hh x hxm)

theorem sortGrants_perm_aux :
    ∀ (l acc : List Grant),
      List.Perm (l.foldl (fun acc g => insertG g acc) acc) (acc ++ l) := by
  intro l
  induction l with
  | nil => intro acc; simp
  | cons g t ih =>
    intro acc
    have h1 := ih (insertG g acc)
    have h2 : List.Perm (insertG g acc ++ t) ((g :: acc) ++ t) :=
      (insertG_perm g acc).append_right t
    have h3 : List.Perm ((g :: acc) ++ t) (acc ++ g :: t) := by
      simpa using List.perm_middle.symm
    exact (h1.trans h2).trans h3

theorem sortGrants_pairwise_aux :
    ∀ (l acc : List Grant),
      List.Pairwise (fun a b => keyLe a b = true) acc →
      List.Pairwise (fun a b => keyLe a b = true)
        (l.foldl (fun acc g => insertG g acc) acc) := by
  intro l
  induction l with
  | nil => intro acc h; simpa using h
  | cons g t ih =>
    intro acc h
    exact ih (insertG g acc) (insertG_pairwise g acc h)

/-- Claim C9, corrected.  The sort step orders records ascending by the
3-tuple (0 if the amount is truthy else 1, niche or ZZZ, title), as a
stable comparison sort: the output is a permutation of the input,
pairwise ordered by the tuple comparison.  For the records A (niche PT,
amount present), B (niche OT, no amount), C (niche PT, no amount) the
sorted order is A, B, C — amount-present first, then OT before PT — not
A, C, B as the claim stated. -/
theorem c9_sort_corrected :
    (∀ l : List Grant, List.Perm (sortGrants l) l ∧
        List.Pairwise (fun a b => keyLe a b = true) (sortGrants l)) ∧
    sortGrants [{title := "A", niche := some "PT", amount := some (.str "5000")},
                {title := "B", niche := some "OT"},
                {title := "C", niche := some "PT"}]
      = [{title := "A", niche := some "PT", amount := some (.str "5000")},
         {title := "B", niche := some "OT"},
         {title := "C", niche := some "PT"}] ∧
    sortGrants [{title := "C", niche := some "PT"},
                {title := "B", niche := some "OT"},
                {title := "A", niche := some "PT", amount := some (.str "5000")}]
      = [{title := "A", niche := some "PT", amount := some (.str "5000")},
         {title := "B", niche := some "OT"},
         {title := "C", niche := some "PT"}] := by
  refine ⟨?_, by decide, by decide⟩
  intro l
  constructor
  · have := sortGrants_perm_aux l []
    simpa [sortGrants] using this
  · exact sortGrants_pairwise_aux l [] List.Pairwise.nil

/-- Counterexample to claim C9 as stated: with A (niche PT, amount
present), B (niche OT, amount absent), C (niche PT, amount absent), no
input order sorts to A, C, B — the ascending tuple order puts B (rank 1,
"OT") before C (rank 1, "PT"). -/
theorem c9_counterexample :
    (sortGrants [{title := "A", niche := some "PT", amount := some (.str "5000")},
                 {title := "B", niche := some "OT"},
                 {title := "C", niche := some "PT"}]
      ≠ [{title := "A", niche := some "PT", amount := some (.str "5000")},
         {title := "C", niche := some "PT"},
         {title := "B", niche := some "OT"}]) ∧
    (sortGrants [{title := "A", niche := some "PT", amount := some (.str "5000")},
                 {title := "C", niche := some "PT"},
                 {title := "B", niche := some "OT"}]
      ≠ [{title := "A", niche := some "PT", amount := some (.str "5000")},
         {title := "C", niche := some "PT"},
         {title := "B", niche := some "OT"}]) ∧
    (sortGrants [{title := "C", niche := some "PT"},
                 {title := "B", niche := some "OT"},
                 {title := "A", niche := some "PT", amount := some (.str "5000")}]
      ≠ [{title := "A", niche := some "PT", amount := some (.str "5000")},
         {title := "C", niche := some "PT"},
         {title := "B", niche := some "OT"}]) := by
  refine ⟨by decide, by decide, by decide⟩

set_option maxRecDepth 40000 in
/-- Claim C2, a code bug.  With absence meaning a missing key,
build_grant_page is total (first conjunct) and an all-absent record
renders with the three literal fallbacks (conjuncts 3 to 5).  But the
claim and the spec also treat a falsy (None) value as absent, and there
the code fails: a record whose summary key is present with value None —
exactly what enricher.enrich stores when no summary is found, last
conjunct — makes build_grant_page raise a TypeError at desc =
summary[:155] (second conjunct); a None enriched_at likewise raises
inside the template. -/
theorem c2_render_fallbacks_and_null_bug :
    (∀ (g : Grant) (slug : String), g.niche.isSome = true →
       g.summary ≠ some .null → g.enrichedAt ≠ some .null →
       (buildGrantPage g slug).isOk = true) ∧
    buildGrantPage {title := "Vision Grant", niche := some "PT", summary := some .null}
        "vision-grant" = .error "TypeError: slicing None summary" ∧
    exceptContains (buildGrantPage {title := "Vision Grant", niche := some "PT"}
        "vision-grant") "Not specified" = true ∧
    exceptContains (buildGrantPage {title := "Vision Grant", niche := some "PT"}
        "vision-grant") "Visit the source for full details." = true ∧
    exceptContains (buildGrantPage {title := "Vision Grant", niche := some "PT"}
        "vision-grant") "See the official page for requirements." = true ∧
    (enrichStep (fun _ => FetchOutcome.ok 200 {}) "2026-01-01"
        {title := "Vision Grant", niche := some "PT"}).summary = some .null ∧
    buildGrantPage
        (enrichStep (fun _ => FetchOutcome.ok 200 {}) "2026-01-01"
          {title := "Vision Grant", niche := some "PT"}) "vision-grant"
      = .error "TypeError: slicing None summary" := by
  refine ⟨?_, by rfl, by decide, by decide, by decide, by decide, by rfl⟩
  intro g slug hn hs he
  obtain ⟨niche, hniche⟩ := Option.isSome_iff_exists.mp hn
  rcases hsum : g.summary with _ | v
  · rcases henr : g.enrichedAt with _ | w
    · simp only [buildGrantPage, hniche, hsum, henr, jGetD, Option.getD, Except.isOk]
      rfl
    · cases w with
      | null => exact absurd henr he
      | str ws =>
        simp only [buildGrantPage, hniche, hsum, henr, jGetD, Option.getD, Except.isOk]
        rfl
  · cases v with
    | null => exact absurd hsum hs
    | str vs =>
      rcases henr : g.enrichedAt with _ | w
      · simp only [buildGrantPage, hniche, hsum, henr, jGetD, Option.getD, Except.isOk]
        rfl
      · cases w with
        | null => exact absurd henr he
        | str ws =>
          simp only [buildGrantPage, hniche, hsum, henr, jGetD, Option.getD, Except.isOk]
          rfl

/-- Witness for claim C2: a record with a present niche and no
null-valued enrichment fields renders successfully. -/
theorem c2_witness :
    (buildGrantPage {title := "Vision Grant", niche := some "PT"}
      "vision-grant").isOk = true :=
  c2_render_fallbacks_and_null_bug.1 {title := "Vision Grant", niche := some "PT"}
    "vision-grant" (by decide) (by decide) (by decide)

theorem litStrip_suffix :
    ∀ (l s rest : List Char), litStrip l s = some rest → rest <:+ s := by
  intro l
  induction l with
  | nil =>
    intro s rest h
    simp only [litStrip, Option.some_inj] at h
    rw [← h]
  | cons c lt ih =>
    intro s rest h
    cases s with
    | nil => simp [litStrip] at h
    | cons x xs =>
      simp only [litStrip] at h
      by_cases hc : c = x
      · rw [if_pos hc] at h
        exact (ih xs rest h).trans (List.suffix_cons x xs)
      · rw [if_neg hc] at h
        cases h

theorem litStripCI_suffix :
    ∀ (l s rest : List Char), litStripCI l s = some rest → rest <:+ s := by
  intro l
  induction l with
  | nil =>
    intro s rest h
    simp only [litStripCI, Option.some_inj] at h
    rw [← h]
  | cons c lt ih =>
    intro s rest h
    cases s with
    | nil => simp [litStripCI] at h
    | cons x xs =>
      simp only [litStripCI] at h
      by_cases hc : c.toLower = x.toLower
      · rw [if_pos hc] at h
        exact (ih xs rest h).trans (List.suffix_cons x xs)
      · rw [if_neg hc] at h
        cases h

theorem starRuns_suffix (m : List Char → List MRes)
    (hm : ∀ s p, p ∈ m s → p.1 <:+ s) (lz : Bool) :
    ∀ (fuel : Nat) (s : List Char) (p : MRes), p ∈ starRuns m lz fuel s → p.1 <:+ s := by
  intro fuel
  induction fuel with
  | zero =>
    intro s p hp
    simp only [starRuns, List.mem_singleton] at hp
    rw [hp]
  | succ f ih =>
    intro s p hp
    simp only [starRuns] at hp
    have hd : p ∈ ((m s).filter (fun q => q.1.length < s.length)).flatMap
        (fun q => (starRuns m lz f q.1).map (fun r => (r.1, oFirst q.2 r.2)))
        ∨ p = (s, none) := by
      cases lz with
      | true =>
        rcases List.mem_cons.mp hp with h | h
        · exact Or.inr h
        · exact Or.inl h
      | false =>
        rcases List.mem_append.mp hp with h | h
        · exact Or.inl h
        · exact Or.inr (List.mem_singleton.mp h)
    rcases hd with h | h
    · rcases List.mem_flatMap.mp h with ⟨q, hq, hpq⟩
      rcases List.mem_map.mp hpq with ⟨r, hr, hrp⟩
      have h1 : r.1 <:+ q.1 := ih q.1 r hr
      have h2 : q.1 <:+ s := hm s q (List.mem_filter.mp hq).1
      rw [← hrp]
      exact h1.trans h2
    · rw [h]

theorem repOpt_suffix (m : List Char → List MRes)
    (hm : ∀ s p, p ∈ m s → p.1 <:+ s) :
    ∀ (extra : Nat) (s : List Char) (p : MRes), p ∈ repOpt m extra s → p.1 <:+ s := by
  intro extra
  induction extra with
  | zero =>
    intro s p hp
    simp only [repOpt, List.mem_singleton] at hp
    rw [hp]
  | succ e ih =>
    intro s p hp
    simp only [repOpt] at hp
    rcases List.mem_append.mp hp with h | h
    · rcases List.mem_flatMap.mp h with ⟨q, hq, hpq⟩
      rcases List.mem_map.mp hpq with ⟨r, hr, hrp⟩
      rw [← hrp]
      exact (ih q.1 r hr).trans (hm s q hq)
    · rw [List.mem_singleton.mp h]

theorem repMand_suffix (m : List Char → List MRes)
    (hm : ∀ s p, p ∈ m s → p.1 <:+ s) (extra : Nat) :
    ∀ (low : Nat) (s : List Char) (p : MRes), p ∈ repMand m extra low s → p.1 <:+ s := by
  intro low
  induction low with
  | zero =>
    intro s p hp
    exact repOpt_suffix m hm extra s p hp
  | succ k ih =>
    intro s p hp
    simp only [repMand] at hp
    rcases List.mem_flatMap.mp hp with ⟨q, hq, hpq⟩
    rcases List.mem_map.mp hpq with ⟨r, hr, hrp⟩
    rw [← hrp]
    exact (ih q.1 r hr).trans (hm s q hq)

theorem mrun_suffix :
    ∀ (r : RE) (s : List Char) (p : MRes), p ∈ mrun r s → p.1 <:+ s := by
  intro r
  induction r with
  | eps =>
    intro s p hp
    simp only [mrun, List.mem_singleton] at hp
    rw [hp]
  | lit l =>
    intro s p hp
    simp only [mrun] at hp
    cases hls : litStrip l.toList s with
    | none => rw [hls] at hp; cases hp
    | some rest =>
      rw [hls] at hp
      rw [List.mem_singleton.mp hp]
      exact litStrip_suffix l.toList s rest hls
  | litCI l =>
    intro s p hp
    simp only [mrun] at hp
    cases hls : litStripCI l.toList s with
    | none => rw [hls] at hp; cases hp
    | some rest =>
      rw [hls] at hp
      rw [List.mem_singleton.mp hp]
      exact litStripCI_suffix l.toList s rest hls
  | cls cc =>
    intro s p hp
    cases s with
    | nil => cases hp
    | cons c t =>
      simp only [mrun] at hp
      by_cases hc : CC.holds cc c = true
      · rw [if_pos hc] at hp
        rw [List.mem_singleton.mp hp]
        exact List.suffix_cons c t
      · rw [if_neg hc] at hp
        cases hp
  | seq a b iha ihb =>
    intro s p hp
    simp only [mrun] at hp
    rcases List.mem_flatMap.mp hp with ⟨q, hq, hpq⟩
    rcases List.mem_map.mp hpq with ⟨r, hr, hrp⟩
    rw [← hrp]
    exact (ihb q.1 r hr).trans (iha s q hq)
  | alt a b iha ihb =>
    intro s p hp
    rcases List.mem_append.mp hp with h | h
    · exact iha s p h
    · exact ihb s p h
  | star r ihr =>
    intro s p hp
    exact starRuns_suffix (mrun r) ihr false s.length s p hp
  | starL r ihr =>
    intro s p hp
    exact starRuns_suffix (mrun r) ihr true s.length s p hp
  | opt r ihr =>
    intro s p hp
    rcases List.mem_append.mp hp with h | h
    · exact ihr s p h
    · rw [List.mem_singleton.mp h]
  | rep r low extra ihr =>
    intro s p hp
    exact repMand_suffix (mrun r) ihr extra low s p hp
  | grp r ihr =>
    intro s p hp
    rcases List.mem_map.mp hp with ⟨q, hq, hqp⟩
    rw [← hqp]
    exact ihr s q hq

theorem mrun_needsDigit :
    ∀ (r : RE) (s : List Char), needsDigit r = true → (∀ c ∈ s, isDig c = false) →
      mrun r s = [] := by
  intro r
  induction r with
  | eps => intro s h _; cases h
  | lit l => intro s h _; cases h
  | litCI l => intro s h _; cases h
  | cls cc =>
    intro s h hs
    have hcc : cc = CC.digit := by
      cases cc <;> first | rfl | cases h
    subst hcc
    cases s with
    | nil => rfl
    | cons c t =>
      have := hs c (List.mem_cons_self c t)
      simp [mrun, CC.holds, this]
  | seq a b iha ihb =>
    intro s h hs
    simp only [needsDigit, Bool.or_eq_true] at h
    by_cases hna : needsDigit a = true
    · simp [mrun, iha s hna hs]
    · have hnb : needsDigit b = true := by
        rcases h with h | h
        · exact absurd h hna
        · exact h
      simp only [mrun]
      apply List.flatMap_eq_nil_iff.mpr
      intro p hp
      have hsub : ∀ c ∈ p.1, isDig c = false :=
        fun c hc => hs c ((mrun_suffix a s p hp).subset hc)
      simp [ihb p.1 hnb hsub]
  | alt a b iha ihb =>
    intro s h hs
    simp only [needsDigit, Bool.and_eq_true] at h
    simp [mrun, iha s h.1 hs, ihb s h.2 hs]
  | star r ihr => intro s h _; cases h
  | starL r ihr => intro s h _; cases h
  | opt r ihr => intro s h _; cases h
  | rep r low extra ihr =>
    intro s h hs
    simp only [needsDigit, Bool.and_eq_true, bne_iff_ne, ne_eq] at h
    obtain ⟨hlow, hr⟩ := h
    obtain ⟨k, hk⟩ : ∃ k, low = k + 1 := by
      cases low with
      | zero => exact absurd rfl hlow
      | succ k => exact ⟨k, rfl⟩
    subst hk
    simp [mrun, repRuns, repMand, ihr s hr hs]
  | grp r ihr =>
    intro s h hs
    simp [mrun, ihr s h hs]

theorem reSearch_none_noDigit (r : RE) (hr : needsDigit r = true) :
    ∀ (s : List Char), (∀ c ∈ s, isDig c = false) → reSearch r s = none := by
  intro s
  induction s with
  | nil =>
    intro hs
    simp [reSearch, mrun_needsDigit r [] hr hs]
  | cons c t ih =>
    intro hs
    have h1 : mrun r (c :: t) = [] := mrun_needsDigit r (c :: t) hr hs
    have h2 : ∀ x ∈ t, isDig x = false := fun x hx => hs x (List.mem_cons_of_mem c hx)
    simp [reSearch, h1, ih h2]

theorem extractDeadline_noDigit (s : String) (h : ∀ c ∈ s.toList, isDig c = false) :
    extractDeadline s = if hasRollingKw s then some "Rolling" else none := by
  have h1 : reSearch deadlineP1 s.toList = none :=
    reSearch_none_noDigit deadlineP1 (by decide) s.toList h
  have h2 : reSearch deadlineP2 s.toList = none :=
    reSearch_none_noDigit deadlineP2 (by decide) s.toList h
  have h3 : reSearch deadlineP3 s.toList = none :=
    reSearch_none_noDigit deadlineP3 (by decide) s.toList h
  have h4 : reSearch deadlineP4 s.toList = none :=
    reSearch_none_noDigit deadlineP4 (by decide) s.toList h
  simp only [String.toList] at h1 h2 h3 h4
  unfold extractDeadline
  simp [deadlinePatterns, List.findSome?_cons, h1, h2, h3, h4]

/-- Claim C6, corrected.  extract_deadline tries the four date patterns in
order and returns the captured date of the first (leftmost) match — the
first conjunct shows pattern order beats position in the text, the
concrete conjuncts exercise patterns a, b, c, d — and when no pattern
matches (here: no digit in the text) it returns exactly "Rolling" when a
whole-word rolling keyword occurs, else absent.  (The original claim said
every text containing "Deadline: March 3, 2026" yields that date; an
earlier-starting match wins instead, see the counterexample.) -/
theorem c6_deadline_corrected :
    (∀ s : String, (∀ c ∈ s.toList, isDig c = false) →
        extractDeadline s = if hasRollingKw s then some "Rolling" else none) ∧
    extractDeadline "Deadline: March 3, 2026" = some "March 3, 2026" ∧
    extractDeadline "Due: 03/04/2026 but Deadline: March 3, 2026" = some "March 3, 2026" ∧
    extractDeadline "applications due by April 22, 2026 at noon" = some "April 22, 2026" ∧
    extractDeadline "Due: 03/04/2026 ok" = some "03/04/2026" ∧
    extractDeadline "Deadline: 2026-04-05 ok" = some "2026-04-05" ∧
    extractDeadline "Applications are accepted on a ROLLING basis" = some "Rolling" ∧
    extractDeadline "Send questions to us" = none := by
  refine ⟨extractDeadline_noDigit, ?_, ?_, ?_, ?_, ?_, ?_, ?_⟩ <;> decide

/-- Counterexample to claim C6 as stated: this text contains the literal
substring "Deadline: March 3, 2026", yet extract_deadline returns the
earlier-starting match "May 1, 2025" of the same first pattern. -/
theorem c6_counterexample :
    extractDeadline "Due May 1, 2025 and Deadline: March 3, 2026" = some "May 1, 2025" ∧
    strContainsStr "Due May 1, 2025 and Deadline: March 3, 2026"
      "Deadline: March 3, 2026" = true ∧
    ("May 1, 2025" : String) ≠ "March 3, 2026" := by
  refine ⟨by decide, by decide, by decide⟩

/-- Witness for the universal part of claim C6 at a digit-free text with a
whole-word rolling keyword. -/
theorem c6_witness :
    extractDeadline "fees are ongoing"
      = if hasRollingKw "fees are ongoing" then some "Rolling" else none :=
  c6_deadline_corrected.1 "fees are ongoing" (by decide)

theorem mrun_amount_nil : mrun amountRE [] = [] := rfl

theorem mrun_amount_ne (c : Char) (t : List Char) (h : ¬ (c = '$')) :
    mrun amountRE (c :: t) = [] := by
  have hl : (("$" : String).toList) = ['$'] := rfl
  have hne : ('$' = c) = False := eq_false (fun e => h e.symm)
  simp [amountRE, mrun, hl, litStrip, hne]

theorem findAll_nil_noDollar :
    ∀ (s : List Char) (fuel : Nat), (∀ c ∈ s, ¬ (c = '$')) →
      findAllF amountRE fuel s = [] := by
  intro s
  induction s with
  | nil =>
    intro fuel _
    cases fuel with
    | zero => rfl
    | succ f => simp [findAllF, mrun_amount_nil]
  | cons c t ih =>
    intro fuel hs
    cases fuel with
    | zero => rfl
    | succ f =>
      have hc : ¬ (c = '$') := hs c (List.mem_cons_self c t)
      have ht : ∀ x ∈ t, ¬ (x = '$') := fun x hx => hs x (List.mem_cons_of_mem c hx)
      simp [findAllF, mrun_amount_ne c t hc, ih f ht]

theorem findAll_skip :
    ∀ (s : List Char) (fuel : Nat) (t : List Char), (∀ c ∈ s, ¬ (c = '$')) →
      findAllF amountRE (s.length + fuel) (s ++ t) = findAllF amountRE fuel t := by
  intro s
  induction s with
  | nil => intro fuel t _; simp
  | cons c cs ih =>
    intro fuel t hs
    have hc : ¬ (c = '$') := hs c (List.mem_cons_self c cs)
    have hcs : ∀ x ∈ cs, ¬ (x = '$') := fun x hx => hs x (List.mem_cons_of_mem c hx)
    have harith : (c :: cs).length + fuel = (cs.length + fuel) + 1 := by
      simp [List.length_cons]
      omega
    rw [harith]
    have hcons : (c :: cs) ++ t = c :: (cs ++ t) := rfl
    rw [hcons]
    simp only [findAllF, mrun_amount_ne c (cs ++ t) hc]
    exact ih fuel t hcs

/-- Claim C4, corrected.  Amount extraction returns absent for every text
with no dollar sign, and otherwise returns the maximum token
comma-formatted — both orders of $1,000 and $25,000 give "25,000".  (The
original claim asserted "25,000" for EVERY text containing those two
substrings; a third, larger token beats them, see the counterexample.) -/
theorem c4_amount_corrected :
    (∀ s : String, (∀ c ∈ s.toList, ¬ (c = '$')) → extractAmount s = none) ∧
    extractAmount "Win $1,000 up to $25,000 today" = some "25,000" ∧
    extractAmount "Win $25,000 or at least $1,000 today" = some "25,000" := by
  refine ⟨?_, by decide, by decide⟩
  intro s hs
  unfold extractAmount
  rw [findAll_nil_noDollar s.toList (s.length + 1) hs]

/-- Counterexample to claim C4 as stated: this text contains both $1,000
and $25,000 yet extraction returns "999,999", the maximum of all three
tokens. -/
theorem c4_counterexample :
    extractAmount "$999,999 $1,000 $25,000" = some "999,999" ∧
    strContainsStr "$999,999 $1,000 $25,000" "$1,000" = true ∧
    strContainsStr "$999,999 $1,000 $25,000" "$25,000" = true ∧
    some ("999,999" : String) ≠ some "25,000" := by
  refine ⟨by decide, by decide, by decide, by decide⟩

/-- Witness for the universal part of claim C4 at a dollar-free text. -/
theorem c4_witness : extractAmount "no dollars here" = none :=
  c4_amount_corrected.1 "no dollars here" (by decide)

theorem isDig_ne_comma {c : Char} (h : isDig c = true) : ¬ (',' = c) :=
  fun e => absurd h (by rw [← e]; decide)

theorem isDig_ne_dollar {c : Char} (h : isDig c = true) : ¬ (c = '$') :=
  fun e => absurd h (by rw [e]; decide)

theorem mrun_digit_cons (c : Char) (t : List Char) (h : isDig c = true) :
    mrun (.cls .digit) (c :: t) = [(t, none)] := by
  simp [mrun, CC.holds, h]

theorem mrun_commaChunk_digit (c : Char) (t : List Char) (h : isDig c = true) :
    mrun (.seq (.lit ",") (.rep (.cls .digit) 3 0)) (c :: t) = [] := by
  have hl : (("," : String).toList) = [','] := rfl
  have hne : (',' = c) = False := eq_false (isDig_ne_comma h)
  simp [mrun, hl, litStrip, hne]

theorem starRuns_commaChunk (c : Char) (t : List Char) (h : isDig c = true)
    (fuel : Nat) :
    starRuns (mrun (.seq (.lit ",") (.rep (.cls .digit) 3 0))) false fuel (c :: t)
      = [(c :: t, none)] := by
  cases fuel with
  | zero => rfl
  | succ f => simp [starRuns, mrun_commaChunk_digit c t h]

theorem mrun_rep12_digits (d1 d2 d3 : Char) (t : List Char)
    (h1 : isDig d1 = true) (h2 : isDig d2 = true) (h3 : isDig d3 = true) :
    mrun (.rep (.cls .digit) 1 2) (d1 :: d2 :: d3 :: t)
      = [(t, none), (d3 :: t, none), (d2 :: d3 :: t, none)] := by
  show repRuns (mrun (.cls .digit)) 1 2 (d1 :: d2 :: d3 :: t)
      = [(t, none), (d3 :: t, none), (d2 :: d3 :: t, none)]
  simp [repRuns, repMand, repOpt, mrun_digit_cons _ _ h1, mrun_digit_cons _ _ h2,
        mrun_digit_cons _ _ h3, oFirst]

theorem mrun_star_commaChunk (c : Char) (t : List Char) (h : isDig c = true) :
    mrun (.star (.seq (.lit ",") (.rep (.cls .digit) 3 0))) (c :: t) = [(c :: t, none)] := by
  show starRuns (mrun (.seq (.lit ",") (.rep (.cls .digit) 3 0))) false
      (c :: t).length (c :: t) = [(c :: t, none)]
  exact starRuns_commaChunk c t h _

theorem mrun_amount_body (d1 d2 d3 c4 : Char) (rest : List Char)
    (h1 : isDig d1 = true) (h2 : isDig d2 = true) (h3 : isDig d3 = true)
    (h4 : isDig c4 = true) :
    mrun (.seq (.rep (.cls .digit) 1 2)
               (.star (.seq (.lit ",") (.rep (.cls .digit) 3 0))))
        (d1 :: d2 :: d3 :: c4 :: rest)
      = [(c4 :: rest, none), (d3 :: c4 :: rest, none), (d2 :: d3 :: c4 :: rest, none)] := by
  show (mrun (.rep (.cls .digit) 1 2) (d1 :: d2 :: d3 :: c4 :: rest)).flatMap
      (fun p => (mrun (.star (.seq (.lit ",") (.rep (.cls .digit) 3 0))) p.1).map
        (fun q => (q.1, oFirst p.2 q.2)))
    = [(c4 :: rest, none), (d3 :: c4 :: rest, none), (d2 :: d3 :: c4 :: rest, none)]
  rw [mrun_rep12_digits d1 d2 d3 (c4 :: rest) h1 h2 h3]
  simp [mrun_star_commaChunk c4 rest h4, mrun_star_commaChunk d3 _ h3,
        mrun_star_commaChunk d2 _ h2, oFirst]

theorem mrun_amount_head (d1 d2 d3 c4 : Char) (rest : List Char)
    (h1 : isDig d1 = true) (h2 : isDig d2 = true) (h3 : isDig d3 = true)
    (h4 : isDig c4 = true) :
    mrun amountRE ('$' :: d1 :: d2 :: d3 :: c4 :: rest)
      = [(c4 :: rest, some [d1, d2, d3]),
         (d3 :: c4 :: rest, some [d1, d2]),
         (d2 :: d3 :: c4 :: rest, some [d1])] := by
  have hlit : mrun (.lit "$") ('$' :: d1 :: d2 :: d3 :: c4 :: rest)
      = [(d1 :: d2 :: d3 :: c4 :: rest, none)] := by
    have hl : (("$" : String).toList) = ['$'] := rfl
    simp [mrun, hl, litStrip]
  have hgrp : mrun (.grp (.seq (.rep (.cls .digit) 1 2)
        (.star (.seq (.lit ",") (.rep (.cls .digit) 3 0)))))
        (d1 :: d2 :: d3 :: c4 :: rest)
      = [(c4 :: rest, some [d1, d2, d3]),
         (d3 :: c4 :: rest, some [d1, d2]),
         (d2 :: d3 :: c4 :: rest, some [d1])] := by
    show (mrun (.seq (.rep (.cls .digit) 1 2)
        (.star (.seq (.lit ",") (.rep (.cls .digit) 3 0))))
        (d1 :: d2 :: d3 :: c4 :: rest)).map
        (fun p => (p.1, some ((d1 :: d2 :: d3 :: c4 :: rest).take
          ((d1 :: d2 :: d3 :: c4 :: rest).length - p.1.length))))
      = [(c4 :: rest, some [d1, d2, d3]),
         (d3 :: c4 :: rest, some [d1, d2]),
         (d2 :: d3 :: c4 :: rest, some [d1])]
    rw [mrun_amount_body d1 d2 d3 c4 rest h1 h2 h3 h4]
    have e1 : (d1 :: d2 :: d3 :: c4 :: rest).length - (c4 :: rest).length = 3 := by
      simp [List.length_cons]
    have e2 : (d1 :: d2 :: d3 :: c4 :: rest).length - (d3 :: c4 :: rest).length = 2 := by
      simp [List.length_cons]
    have e3 : (d1 :: d2 :: d3 :: c4 :: rest).length - (d2 :: d3 :: c4 :: rest).length = 1 := by
      simp [List.length_cons]
    simp [e1, e2, e3]
  show (mrun (.lit "$") ('$' :: d1 :: d2 :: d3 :: c4 :: rest)).flatMap
      (fun p => (mrun (.grp (.seq (.rep (.cls .digit) 1 2)
        (.star (.seq (.lit ",") (.rep (.cls .digit) 3 0))))) p.1).map
        (fun q => (q.1, oFirst p.2 q.2)))
    = [(c4 :: rest, some [d1, d2, d3]),
       (d3 :: c4 :: rest, some [d1, d2]),
       (d2 :: d3 :: c4 :: rest, some [d1])]
  rw [hlit]
  simp [hgrp, oFirst]

theorem findAll_amount_token (d1 d2 d3 c4 : Char) (rest : List Char) (fuel : Nat)
    (h1 : isDig d1 = true) (h2 : isDig d2 = true) (h3 : isDig d3 = true)
    (h4 : isDig c4 = true) (hrest : ∀ c ∈ rest, isDig c = true) :
    findAllF amountRE (fuel + 1) ('$' :: d1 :: d2 :: d3 :: c4 :: rest)
      = [[d1, d2, d3]] := by
  have hzero : findAllF amountRE fuel (c4 :: rest) = [] := by
    apply findAll_nil_noDollar
    intro c hc
    rcases List.mem_cons.mp hc with rfl | hm
    · exact isDig_ne_dollar h4
    · exact isDig_ne_dollar (hrest c hm)
  have hlen : (c4 :: rest).length < ('$' :: d1 :: d2 :: d3 :: c4 :: rest).length := by
    simp [List.length_cons]
  simp [findAllF, mrun_amount_head d1 d2 d3 c4 rest h1 h2 h3 h4, hlen, hzero]

/-- Claim C5, confirmed.  When the text is a dollar-free prefix followed
by a dollar sign and a run of 4 or more digits with no comma separators,
the token pattern captures exactly the first three digits of the run and
extract_amount returns their comma-formatted value (for $5000 that is
"500", not "5,000"). -/
theorem c5_digit_run_truncation :
    (∀ (pre ds : String), (∀ c ∈ pre.toList, ¬ (c = '$')) →
      (∀ c ∈ ds.toList, isDig c = true) → 4 ≤ ds.length →
      extractAmount (pre ++ "$" ++ ds)
        = some (commaFmt (digitsVal (ds.toList.take 3)))) ∧
    extractAmount "x$5000" = some "500" ∧
    extractAmount "x$5000" ≠ some "5,000" := by
  refine ⟨?_, by decide, by decide⟩
  intro pre ds hpre hds hlen
  have hlen4 : 4 ≤ ds.toList.length := hlen
  obtain ⟨d1, l1, hds1⟩ : ∃ d1 l1, ds.toList = d1 :: l1 := by
    cases h : ds.toList with
    | nil => rw [h] at hlen4; cases hlen4
    | cons a l => exact ⟨a, l, rfl⟩
  rw [hds1] at hlen4
  obtain ⟨d2, l2, hds2⟩ : ∃ d2 l2, l1 = d2 :: l2 := by
    cases h : l1 with
    | nil => rw [h] at hlen4; simp at hlen4
    | cons a l => exact ⟨a, l, rfl⟩
  rw [hds2] at hlen4
  obtain ⟨d3, l3, hds3⟩ : ∃ d3 l3, l2 = d3 :: l3 := by
    cases h : l2 with
    | nil => rw [h] at hlen4; simp at hlen4
    | cons a l => exact ⟨a, l, rfl⟩
  rw [hds3] at hlen4
  obtain ⟨c4, rest, hds4⟩ : ∃ c4 rest, l3 = c4 :: rest := by
    cases h : l3 with
    | nil => rw [h] at hlen4; simp at hlen4
    | cons a l => exact ⟨a, l, rfl⟩
  have hl : ds.toList = d1 :: d2 :: d3 :: c4 :: rest := by
    rw [hds1, hds2, hds3, hds4]
  rw [hl] at hds
  have h1 : isDig d1 = true := hds d1 (by simp)
  have h2 : isDig d2 = true := hds d2 (by simp)
  have h3 : isDig d3 = true := hds d3 (by simp)
  have h4 : isDig c4 = true := hds c4 (by simp)
  have hrest : ∀ c ∈ rest, isDig c = true := fun c hc => hds c (by simp [hc])
  have hsplit : (pre ++ "$" ++ ds).toList = pre.toList ++ '$' :: ds.toList := by
    show ((pre ++ "$") ++ ds).data = pre.data ++ '$' :: ds.data
    rw [String.data_append, String.data_append]
    simp [show ("$" : String).data = ['$'] from rfl]
  have hfuel : (pre ++ "$" ++ ds).length + 1
      = pre.toList.length + (ds.toList.length + 2) := by
    rw [String.length_append, String.length_append]
    have hp : pre.toList.length = pre.length := rfl
    have hd : ds.toList.length = ds.length := rfl
    have hone : ("$" : String).length = 1 := rfl
    omega
  unfold extractAmount
  rw [hsplit, hfuel, findAll_skip pre.toList _ ('$' :: ds.toList) hpre]
  rw [hl]
  have hfuel2 : (d1 :: d2 :: d3 :: c4 :: rest).length + 2 = (rest.length + 5) + 1 := by
    simp [List.length_cons]
  rw [hfuel2, findAll_amount_token d1 d2 d3 c4 rest (rest.length + 5) h1 h2 h3 h4 hrest]
  have hfilter : parseAmountTok [d1, d2, d3] = digitsVal [d1, d2, d3] := by
    have f1 : (d1 != ',') = true := by
      simp only [bne_iff_ne, ne_eq]
      exact fun e => isDig_ne_comma h1 e.symm
    have f2 : (d2 != ',') = true := by
      simp only [bne_iff_ne, ne_eq]
      exact fun e => isDig_ne_comma h2 e.symm
    have f3 : (d3 != ',') = true := by
      simp only [bne_iff_ne, ne_eq]
      exact fun e => isDig_ne_comma h3 e.symm
    simp [parseAmountTok, List.filter, f1, f2, f3]
  simp [hfilter]

/-- Witness for claim C5 at the concrete text x$5000. -/
theorem c5_witness :
    extractAmount ("x" ++ "$" ++ "5000")
      = some (commaFmt (digitsVal (("5000" : String).toList.take 3))) :=
  c5_digit_run_truncation.1 "x" "5000" (by decide) (by decide) (by decide)

theorem urlStep_eq (s n : Nat) (c : Char) :
    urlStep (s, n) c = (urlState s c, n + urlInc s c) := by
  dsimp only [urlStep, urlState, urlInc]
  split_ifs <;> rfl

theorem foldl_urlStep_eq (l : List Char) :
    ∀ (s n : Nat), l.foldl urlStep (s, n) = ((urlScan s l).1, n + (urlScan s l).2) := by
  induction l with
  | nil => intro s n; rfl
  | cons c t ih =>
    intro s n
    show List.foldl urlStep (urlStep (s, n) c) t = _
    rw [urlStep_eq, ih]
    show _ = ((urlScan (urlState s c) t).1, n + (urlInc s c + (urlScan (urlState s c) t).2))
    rw [Nat.add_assoc]

theorem urlScan_append (a : List Char) :
    ∀ (b : List Char) (s : Nat),
      urlScan s (a ++ b)
        = ((urlScan (urlScan s a).1 b).1,
           (urlScan s a).2 + (urlScan (urlScan s a).1 b).2) := by
  induction a with
  | nil =>
    intro b s
    show urlScan s b = ((urlScan s b).1, 0 + (urlScan s b).2)
    rw [Nat.zero_add]
  | cons c t ih =>
    intro b s
    show ((urlScan (urlState s c) (t ++ b)).1,
          urlInc s c + (urlScan (urlState s c) (t ++ b)).2) = _
    rw [ih b (urlState s c)]
    show ((urlScan (urlScan (urlState s c) t).1 b).1,
          urlInc s c + ((urlScan (urlState s c) t).2
            + (urlScan (urlScan (urlState s c) t).1 b).2))
        = ((urlScan (urlScan (urlState s c) t).1 b).1,
          (urlInc s c + (urlScan (urlState s c) t).2)
            + (urlScan (urlScan (urlState s c) t).1 b).2)
    rw [Nat.add_assoc]

theorem urlScan_clean (l : List Char) (h : ∀ c ∈ l, ¬(c = '<')) :
    urlScan 0 l = (0, 0) := by
  induction l with
  | nil => rfl
  | cons c t ih =>
    have hc : ¬(c = '<') := h c (List.mem_cons_self c t)
    have ht : ∀ x ∈ t, ¬(x = '<') := fun x hx => h x (List.mem_cons_of_mem c hx)
    have hs : urlState 0 c = 0 := by simp [urlState, hc]
    show ((urlScan (urlState 0 c) t).1, urlInc 0 c + (urlScan (urlState 0 c) t).2) = (0, 0)
    rw [hs, ih ht]
    rfl

set_option maxRecDepth 40000 in
theorem urlScan_home : urlScan 0 homeEntry.data = (0, 1) := by decide

set_option maxRecDepth 40000 in
theorem urlScan_resources : urlScan 0 resourcesEntry.data = (0, 1) := by decide

theorem slugEntry_data (s : String) :
    (slugEntry s).data
      = ("  <url><loc>https://grantflow.vercel.app/grants/").data
        ++ (s.data
        ++ (".html</loc><changefreq>weekly</changefreq><priority>0.8</priority></url>").data) := by
  show (("  <url><loc>" ++ (siteUrl ++ "/grants/" ++ s ++ ".html")
      ++ "</loc><changefreq>weekly</changefreq><priority>0.8</priority></url>")).data = _
  simp [siteUrl, String.data_append, List.append_assoc]

set_option maxRecDepth 40000 in
theorem urlScan_slugEntry (s : String) (h : ∀ c ∈ s.data, ¬(c = '<')) :
    urlScan 0 (slugEntry s).data = (0, 1) := by
  have hA : urlScan 0 ("  <url><loc>https://grantflow.vercel.app/grants/").data = (0, 1) := by
    decide
  have hB : urlScan 0
      (".html</loc><changefreq>weekly</changefreq><priority>0.8</priority></url>").data
      = (0, 0) := by decide
  have hs := urlScan_clean s.data h
  rw [slugEntry_data, urlScan_append, hA]
  simp only [urlScan_append, hs, hA, hB]

theorem joinNl_cons_data (a y : String) (u : List String) :
    (joinNl (a :: y :: u)).data = a.data ++ ('\n' :: (joinNl (y :: u)).data) := by
  show ((a ++ "\n") ++ joinNl (y :: u)).data = _
  simp [String.data_append]

theorem urlScan_joinNl (l : List String) (h : ∀ x ∈ l, urlScan 0 x.data = (0, 1)) :
    urlScan 0 (joinNl l).data = (0, l.length) := by
  induction l with
  | nil => rfl
  | cons x t ih =>
    cases t with
    | nil => exact h x (by simp)
    | cons y u =>
      have hx := h x (by simp)
      have ht : ∀ z ∈ y :: u, urlScan 0 z.data = (0, 1) := fun z hz =>
        h z (List.mem_cons_of_mem x hz)
      have hJ := ih ht
      rw [joinNl_cons_data, urlScan_append, hx]
      have hnl : urlScan 0 ('\n' :: (joinNl (y :: u)).data)
          = ((urlScan 0 (joinNl (y :: u)).data).1,
             0 + (urlScan 0 (joinNl (y :: u)).data).2) := rfl
      rw [hnl, hJ]
      simp [List.length_cons]
      omega

theorem buildSitemap_data (slugs : List String) :
    (buildSitemap slugs).data
      = ("<?xml version=\"1.0\" encoding=\"UTF-8\"?>\n<urlset xmlns=\"http://www.sitemaps.org/schemas/sitemap/0.9\">\n").data
        ++ ((joinNl (sitemapUrls slugs)).data ++ ("\n</urlset>").data) := by
  show (("<?xml version=\"1.0\" encoding=\"UTF-8\"?>\n<urlset xmlns=\"http://www.sitemaps.org/schemas/sitemap/0.9\">\n")
      ++ joinNl (sitemapUrls slugs) ++ "\n</urlset>").data = _
  simp [String.data_append]

set_option maxRecDepth 40000 in
theorem urlCount_buildSitemap (slugs : List String)
    (h : ∀ s ∈ slugs, ∀ c ∈ s.data, ¬(c = '<')) :
    urlCount (buildSitemap slugs) = 2 + slugs.length := by
  have hitems : ∀ x ∈ sitemapUrls slugs, urlScan 0 x.data = (0, 1) := by
    intro x hx
    simp only [sitemapUrls, List.mem_cons] at hx
    rcases hx with rfl | rfl | hx
    · exact urlScan_home
    · exact urlScan_resources
    · rcases List.mem_map.mp hx with ⟨s, hs, rfl⟩
      exact urlScan_slugEntry s (h s hs)
  have hJ := urlScan_joinNl _ hitems
  have hH : urlScan 0
      ("<?xml version=\"1.0\" encoding=\"UTF-8\"?>\n<urlset xmlns=\"http://www.sitemaps.org/schemas/sitemap/0.9\">\n").data
      = (0, 0) := by decide
  have hT : urlScan 0 ("\n</urlset>").data = (0, 0) := by decide
  have hlen : (sitemapUrls slugs).length = 2 + slugs.length := by
    simp [sitemapUrls]
    omega
  show (List.foldl urlStep (0, 0) (buildSitemap slugs).data).2 = 2 + slugs.length
  rw [foldl_urlStep_eq, buildSitemap_data]
  simp only [urlScan_append, hH, hJ, hT, hlen]
  omega

theorem listStartsWith_append (n : List Char) :
    ∀ (a b : List Char), listStartsWith n a = true → listStartsWith n (a ++ b) = true := by
  induction n with
  | nil => intro a b _; rfl
  | cons x nt ih =>
    intro a b h
    cases a with
    | nil => simp [listStartsWith] at h
    | cons c ct =>
      simp only [listStartsWith, Bool.and_eq_true, beq_iff_eq] at h
      simp only [List.cons_append, listStartsWith, Bool.and_eq_true, beq_iff_eq]
      exact ⟨h.1, ih ct b h.2⟩

theorem listStartsWith_self (n : List Char) : ∀ b, listStartsWith n (n ++ b) = true := by
  induction n with
  | nil => intro b; rfl
  | cons x nt ih =>
    intro b
    simp [List.cons_append, listStartsWith, ih b]

theorem scanHas_left (nd a b : List Char) (h : scanHas nd a = true) :
    scanHas nd (a ++ b) = true := by
  induction a with
  | nil =>
    cases nd with
    | nil =>
      cases b with
      | nil => rfl
      | cons c t => simp [scanHas, listStartsWith]
    | cons x t => simp [scanHas] at h
  | cons c t ih =>
    rw [List.cons_append]
    show (listStartsWith nd (c :: (t ++ b)) || scanHas nd (t ++ b)) = true
    have h' : listStartsWith nd (c :: t) = true ∨ scanHas nd t = true := by
      simpa [scanHas, Bool.or_eq_true] using h
    rcases h' with h1 | h2
    · have h3 := listStartsWith_append nd (c :: t) b h1
      rw [List.cons_append] at h3
      simp [h3]
    · simp [ih h2]

theorem scanHas_right (nd b : List Char) (h : scanHas nd b = true) :
    ∀ a, scanHas nd (a ++ b) = true := by
  intro a
  induction a with
  | nil => simpa using h
  | cons c t ih =>
    rw [List.cons_append]
    show (listStartsWith nd (c :: (t ++ b)) || scanHas nd (t ++ b)) = true
    simp [ih]

theorem scanHas_head (nd b : List Char) : scanHas nd (nd ++ b) = true := by
  cases nd with
  | nil =>
    cases b with
    | nil => rfl
    | cons c t => simp [scanHas, listStartsWith]
  | cons x t =>
    have h := listStartsWith_self (x :: t) b
    rw [List.cons_append] at h
    rw [List.cons_append]
    show (listStartsWith (x :: t) (x :: (t ++ b)) || scanHas (x :: t) (t ++ b)) = true
    simp [h]

theorem scanHas_mid (nd a b : List Char) : scanHas nd (a ++ (nd ++ b)) = true :=
  scanHas_right nd (nd ++ b) (scanHas_head nd b) a

theorem scanHas_joinNl (nd : List Char) (l : List String) (x : String)
    (hx : x ∈ l) (hin : scanHas nd x.data = true) :
    scanHas nd (joinNl l).data = true := by
  induction l with
  | nil => cases hx
  | cons a t ih =>
    cases t with
    | nil =>
      have hxa : x = a := by simpa using hx
      subst hxa
      exact hin
    | cons y u =>
      rw [joinNl_cons_data]
      rcases (by simpa using hx : x = a ∨ x ∈ y :: u) with rfl | hmem
      · exact scanHas_left nd x.data _ hin
      · have h2 := ih hmem
        have h3 : scanHas nd ('\n' :: (joinNl (y :: u)).data) = true := by
          show (listStartsWith nd ('\n' :: (joinNl (y :: u)).data)
              || scanHas nd (joinNl (y :: u)).data) = true
          simp [h2]
        exact scanHas_right nd _ h3 a.data

theorem sitemap_contains_of_entry (slugs : List String) (x : String) (nd : String)
    (hx : x ∈ sitemapUrls slugs) (hin : scanHas nd.data x.data = true) :
    strContainsStr (buildSitemap slugs) nd = true := by
  show scanHas nd.data (buildSitemap slugs).data = true
  rw [buildSitemap_data]
  apply scanHas_right
  apply scanHas_left
  exact scanHas_joinNl nd.data _ x hx hin

theorem slugEntry_contains (s : String) :
    scanHas (siteUrl ++ "/grants/" ++ s ++ ".html").data (slugEntry s).data = true := by
  have hdec : (slugEntry s).data
      = ("  <url><loc>").data
        ++ ((siteUrl ++ "/grants/" ++ s ++ ".html").data
        ++ ("</loc><changefreq>weekly</changefreq><priority>0.8</priority></url>").data) := by
    show ("  <url><loc>" ++ (siteUrl ++ "/grants/" ++ s ++ ".html")
        ++ "</loc><changefreq>weekly</changefreq><priority>0.8</priority></url>").data = _
    simp [String.data_append, List.append_assoc]
  rw [hdec]
  exact scanHas_mid _ _ _

set_option maxRecDepth 40000 in
theorem homeEntry_contains : scanHas (siteUrl ++ "/").data homeEntry.data = true := by
  decide

set_option maxRecDepth 40000 in
theorem resourcesEntry_contains :
    scanHas (siteUrl ++ "/resources.html").data resourcesEntry.data = true := by
  decide

/-- C3, corrected.  build_sitemap emits exactly one url entry per record
slug plus exactly two fixed entries — the home page and the resources
page — where the resources entry is UNCONDITIONAL (the source appends it
whether or not a resources list is present, contrary to the claim).  For
every slug list whose slugs avoid the automaton trigger character, the
sitemap holds exactly 2 + n occurrences of the token that opens a url
entry, it contains each record's slug URL, and it contains the home and
resources locations. -/
theorem c3_sitemap_entries_corrected :
    (∀ slugs : List String,
        (∀ s ∈ slugs, ∀ c ∈ s.data, ¬(c = '<')) →
        urlCount (buildSitemap slugs) = 2 + slugs.length) ∧
    (∀ slugs : List String, ∀ s ∈ slugs,
        strContainsStr (buildSitemap slugs) (siteUrl ++ "/grants/" ++ s ++ ".html") = true) ∧
    (∀ slugs : List String,
        strContainsStr (buildSitemap slugs) (siteUrl ++ "/") = true) ∧
    (∀ slugs : List String,
        strContainsStr (buildSitemap slugs) (siteUrl ++ "/resources.html") = true) := by
  refine ⟨fun slugs h => urlCount_buildSitemap slugs h,
    fun slugs s hs => ?_, fun slugs => ?_, fun slugs => ?_⟩
  · exact sitemap_contains_of_entry slugs (slugEntry s) _
      (List.mem_cons_of_mem _ (List.mem_cons_of_mem _ (List.mem_map_of_mem slugEntry hs)))
      (slugEntry_contains s)
  · exact sitemap_contains_of_entry slugs homeEntry _ (List.mem_cons_self _ _)
      homeEntry_contains
  · exact sitemap_contains_of_entry slugs resourcesEntry _
      (List.mem_cons_of_mem _ (List.mem_cons_self _ _)) resourcesEntry_contains

set_option maxRecDepth 40000 in
/-- C3 counterexample: with no records at all (and hence no resources
list passed anywhere — build_sitemap does not even receive one), the
claim predicts a single url entry (home only), but the generated sitemap
holds two url entries and contains the resources page unconditionally. -/
theorem c3_counterexample :
    urlCount (buildSitemap []) = 2 ∧
    strContainsStr (buildSitemap []) "resources.html" = true ∧
    ¬(urlCount (buildSitemap []) = 1) := by
  decide

/-- C3 witness: the corrected theorem applied at a one-record batch. -/
theorem c3_witness :
    urlCount (buildSitemap ["pediatric-pt-grant"]) = 2 + 1 ∧
    strContainsStr (buildSitemap ["pediatric-pt-grant"])
      (siteUrl ++ "/grants/" ++ "pediatric-pt-grant" ++ ".html") = true ∧
    strContainsStr (buildSitemap ["pediatric-pt-grant"]) (siteUrl ++ "/") = true ∧
    strContainsStr (buildSitemap ["pediatric-pt-grant"]) (siteUrl ++ "/resources.html") = true :=
  ⟨c3_sitemap_entries_corrected.1 ["pediatric-pt-grant"] (by decide),
   c3_sitemap_entries_corrected.2.1 ["pediatric-pt-grant"] "pediatric-pt-grant" (by decide),
   c3_sitemap_entries_corrected.2.2.1 ["pediatric-pt-grant"],
   c3_sitemap_entries_corrected.2.2.2 ["pediatric-pt-grant"]⟩
